import Mathlib

/-!
# Verification of the opentui styled-component engine

A shallow embedding of the style-resolution and composition core:

* `packages/styles/src/resolve.ts` — `processStyledConfig`, `resolveStyles`,
  `compoundVariantMatches`, `applyLayerStyles`, `flattenSlotStyle`;
* the style-merging module — `mergeStyle`, `mergeSlotStyles`,
  `mergeSlotStyleWithSelectors`, `mergeStyledConfig`, `mergeVariants`,
  `mergeVariantValues`;
* the styled factory — `createStyled`, `isStyledComponentDefinition`.

JavaScript objects are modelled as insertion-ordered association lists
`List (String × α)`.  A key that is present with the value `undefined` is
distinguished from an absent key (`Option` at the value position, or the
`JVal.undef` constructor for dynamic style values).  Writing to an object
(`o[k] = v`) updates the first occurrence of the key in place, otherwise
appends — exactly JavaScript's key-insertion-order semantics.  Object
copies and spreads (`{...o}`) are identities in this persistent model.

Style property values are drawn from `JVal`: `undef` models the JavaScript
value `undefined`, `prim` models any primitive style value (colors,
dimensions, … — opaque strings here), and `obj` models a one-level nested
plain object such as a state-selector partial style.
-/

/-- A dynamic JavaScript value occurring at a style-property position:
`undefined`, a primitive, or a plain object (whose own properties are
primitives or `undefined`). -/
inductive JVal where
  | undef : JVal
  | prim (s : String) : JVal
  | obj (fields : List (String × Option String)) : JVal
deriving DecidableEq, Repr

/-- Own-property read: `none` when the key is absent. -/
def getOwn : List (String × α) → String → Option α
  | [], _ => none
  | e :: rest, k => if e.1 = k then some e.2 else getOwn rest k

/-- `Object.hasOwn`. -/
def hasOwnKey : List (String × α) → String → Bool
  | [], _ => false
  | e :: rest, k => e.1 = k || hasOwnKey rest k

/-- JavaScript assignment `o[k] = v`: update the first occurrence of the
key in place, else append the new key at the end. -/
def setKey : List (String × α) → String → α → List (String × α)
  | [], k, v => [(k, v)]
  | e :: rest, k, v => if e.1 = k then (k, v) :: rest else e :: setKey rest k v

/-- Object spread `{...target, ...source}` (also models `Object.assign`):
every own key of `source` — including keys whose value is `undefined` —
is written onto `target` in insertion order. -/
def spreadObj (target : List (String × α)) (source : List (String × α)) :
    List (String × α) :=
  source.foldl (fun r kv => setKey r kv.1 kv.2) target

/-- JavaScript property access `o[k]` on an object whose values may be
`undefined`: an absent key and a present-but-`undefined` key both read as
`undefined` (`none`). -/
def jsGet (o : List (String × Option α)) (k : String) : Option α :=
  match getOwn o k with
  | some v => v
  | none => none

/-- The keys of an object, in insertion order (`Object.keys`). -/
def keysOf (o : List (String × α)) : List String :=
  o.map (·.1)

-- ============================================================================
-- The data model of the styles package
-- ============================================================================

/-- A single slot's style object: ordinary properties together with
state-selector entries (keys carrying the reserved `_` marker). -/
abbrev Style := List (String × JVal)

/-- A per-slot style map (`StyledSlotStyles`): slot name → style object or
an explicit `undefined`. -/
abbrev SlotStyles := List (String × Option Style)

/-- One variant's table: variant value name → per-slot styles. -/
abbrev VariantDef := List (String × Option SlotStyles)

/-- The `variants` table: variant name → variant definition. -/
abbrev Variants := List (String × Option VariantDef)

/-- `defaultVariants`: variant name → default value (or explicit
`undefined`). -/
abbrev Defaults := List (String × Option String)

/-- Runtime component state: state key → boolean. -/
abbrev ComponentState := List (String × Bool)

/-- Runtime variant selections (`variantProps`): variant name → chosen
value, possibly explicitly `undefined`. -/
abbrev VariantSelections := List (String × Option String)

/-- A flat resolved style object for one slot (no selector keys remain). -/
abbrev Flat := List (String × JVal)

/-- The resolver output (`ResolvedSlotStyles`): slot name → flat style. -/
abbrev Resolved := List (String × Flat)

instance : DecidableEq Style := inferInstance

instance : DecidableEq SlotStyles := inferInstance

instance : DecidableEq VariantDef := inferInstance

instance : DecidableEq Variants := inferInstance

/-- A compound-variant entry: the variant-name → required-value conditions
(every key of the source object other than `styles`), plus the styles
payload. -/
structure CompoundVariant where
  conditions : List (String × Option String)
  styles : SlotStyles
deriving DecidableEq, Repr

/-- The author-facing `StyledConfig`: all four fields optional. -/
structure StyledConfig where
  base : Option SlotStyles := none
  variants : Option Variants := none
  compoundVariants : Option (List CompoundVariant) := none
  defaultVariants : Option Defaults := none
deriving DecidableEq, Repr

/-- The `ProcessedStyledConfig` consumed by the resolver. -/
structure ProcessedStyledConfig where
  base : SlotStyles
  variants : Variants
  compoundVariants : List CompoundVariant
  defaultVariants : Defaults
  stateKeys : List String
  variantNameSet : List String
deriving DecidableEq, Repr

/-- The reserved state-selector marker (`STATE_SELECTOR_PREFIX = "_"`). -/
def stateSelectorMark : String := "_"

/-- `key.startsWith(STATE_SELECTOR_PREFIX)`: the marker is the single
underscore character, so this tests the first character of the key. -/
def isSelectorKey (key : String) : Bool :=
  match key.data with
  | [] => false
  | c :: _ => c = '_'

/-- The selector key for a state key: `` `${STATE_SELECTOR_PREFIX}${stateKey}` ``. -/
def selectorKey (stateKey : String) : String :=
  stateSelectorMark ++ stateKey

/-- `isPlainObject`: the value is a plain object (not `undefined`, not a
primitive). -/
def isPlainObject : JVal → Bool
  | .obj _ => true
  | _ => false

-- ============================================================================
-- Config processing (`processStyledConfig`)
-- ============================================================================

/-- `processStyledConfig`: default every absent field to its empty form and
precompute `variantNameSet` from the keys of `variants`. -/
def processStyledConfig (config : StyledConfig) (stateKeys : List String) :
    ProcessedStyledConfig :=
  let variants := config.variants.getD []
  { base := config.base.getD []
    variants := variants
    compoundVariants := config.compoundVariants.getD []
    defaultVariants := config.defaultVariants.getD []
    stateKeys := stateKeys
    variantNameSet := keysOf variants }

-- ============================================================================
-- Style merging (the merge module)
-- ============================================================================

/-- `mergeStyle`: shallow merge of two flat style objects; `undefined`
values in the override are skipped, other values replace base values. -/
def mergeStyle (base override : List (String × Option String)) :
    List (String × Option String) :=
  override.foldl
    (fun result kv =>
      match kv.2 with
      | none => result
      | some v => setKey result kv.1 (some v))
    base

/-- `mergeSlotStyleWithSelectors`: merge one slot's styles; state-selector
entries (a `_`-marked key holding a plain object) are merged one level
deeper with `mergeStyle`, every other defined override value replaces the
base value. -/
def mergeSlotStyleWithSelectors (base override : Style) : Style :=
  let result := base.foldl (fun result kv => setKey result kv.1 kv.2) []
  override.foldl
    (fun result kv =>
      match kv.2 with
      | .undef => result
      | overrideValue =>
        if isSelectorKey kv.1 && isPlainObject overrideValue then
          match overrideValue, getOwn result kv.1 with
          | .obj ovf, some (.obj baseSelector) =>
            setKey result kv.1 (.obj (mergeStyle baseSelector ovf))
          | .obj ovf, _ => setKey result kv.1 (.obj ovf)
          | v, _ => setKey result kv.1 v
        else setKey result kv.1 overrideValue)
    result

/-- `mergeSlotStyles`: merge per-slot style maps slot-by-slot; an
`undefined` override slot is skipped, a slot absent from the base is taken
as-is, and a slot present on both sides is merged with
`mergeSlotStyleWithSelectors`. -/
def mergeSlotStyles (base override : SlotStyles) : SlotStyles :=
  override.foldl
    (fun result kv =>
      match kv.2 with
      | none => result
      | some overrideSlot =>
        match jsGet base kv.1 with
        | none => setKey result kv.1 (some overrideSlot)
        | some baseSlot =>
          setKey result kv.1
            (some (mergeSlotStyleWithSelectors baseSlot overrideSlot)))
    base

/-- `mergeVariantValues`: merge one variant's value table; `undefined`
override values are skipped, values new to the base are added, values on
both sides get their slot styles merged. -/
def mergeVariantValues (baseValues overrideValues : VariantDef) : VariantDef :=
  overrideValues.foldl
    (fun result kv =>
      match kv.2 with
      | none => result
      | some overrideValue =>
        match jsGet result kv.1 with
        | none => setKey result kv.1 (some overrideValue)
        | some baseValue =>
          setKey result kv.1 (some (mergeSlotStyles baseValue overrideValue)))
    baseValues

/-- `mergeVariants`: merge variant tables by variant name.  A name whose
base entry reads as `undefined` receives the override entry unchanged
(even an explicitly `undefined` one); a name defined on both sides has its
value tables merged — the source calls `mergeVariantValues` with the
override entry even when that entry is `undefined`, in which case the
`for…in` loop over `undefined` runs zero iterations and the base table is
kept. -/
def mergeVariants (baseVariants overrideVariants : Option Variants) : Variants :=
  match baseVariants, overrideVariants with
  | none, none => []
  | none, some o => o
  | some b, none => b
  | some b, some o =>
    o.foldl
      (fun result kv =>
        match jsGet result kv.1 with
        | none => setKey result kv.1 kv.2
        | some baseVariant =>
          match kv.2 with
          | none => setKey result kv.1 (some baseVariant)
          | some overrideVariant =>
            setKey result kv.1
              (some (mergeVariantValues baseVariant overrideVariant)))
      b

/-- `mergeStyledConfig`: deep-merge `base`, merge `variants` by name,
shallow-spread `defaultVariants` (override wins, an explicitly `undefined`
override entry included), and append `compoundVariants`. -/
def mergeStyledConfig (baseConfig overrideConfig : StyledConfig) : StyledConfig where
  base :=
    some (mergeSlotStyles (baseConfig.base.getD []) (overrideConfig.base.getD []))
  variants := some (mergeVariants baseConfig.variants overrideConfig.variants)
  compoundVariants :=
    some (baseConfig.compoundVariants.getD [] ++ overrideConfig.compoundVariants.getD [])
  defaultVariants :=
    some (spreadObj (baseConfig.defaultVariants.getD [])
      (overrideConfig.defaultVariants.getD []))

-- ============================================================================
-- Style resolution (`resolveStyles`)
-- ============================================================================

/-- `flattenSlotStyle`: copy all defined non-selector properties of the
slot style, then, for each state key in declared order whose state value
is `true`, merge that state's selector style (when it is a plain object)
onto the accumulator. -/
def flattenSlotStyle (result : Flat) (slotStyle : Style) (state : ComponentState)
    (stateKeys : List String) : Flat :=
  let result :=
    slotStyle.foldl
      (fun result kv =>
        if !isSelectorKey kv.1 then
          match kv.2 with
          | .undef => result
          | v => setKey result kv.1 v
        else result)
      result
  stateKeys.foldl
    (fun result stateKey =>
      if getOwn state stateKey = some true then
        match getOwn slotStyle (selectorKey stateKey) with
        | some (.obj selectorStyle) =>
          selectorStyle.foldl
            (fun result kv =>
              match kv.2 with
              | none => result
              | some v => setKey result kv.1 (.prim v))
            result
        | _ => result
      else result)
    result

/-- `applyLayerStyles`: apply one style layer to the accumulator,
flattening each defined slot's styles onto the (possibly newly created)
per-slot accumulator. -/
def applyLayerStyles (result : Resolved) (slotStyles : SlotStyles)
    (state : ComponentState) (stateKeys : List String) : Resolved :=
  slotStyles.foldl
    (fun result kv =>
      match kv.2 with
      | none => result
      | some slotStyle =>
        let slot := (getOwn result kv.1).getD []
        setKey result kv.1 (flattenSlotStyle slot slotStyle state stateKeys))
    result

/-- `compoundVariantMatches`: all conditions must match the effective
variant values, and an entry with no conditions never matches. -/
def compoundVariantMatches (compoundVariant : CompoundVariant)
    (effectiveVariants : VariantSelections) : Bool :=
  !compoundVariant.conditions.isEmpty &&
    compoundVariant.conditions.all
      (fun c => jsGet effectiveVariants c.1 == c.2)

/-- The effective variant values of `resolveStyles`: when any variant
props were supplied, spread them over `defaultVariants` (so an explicitly
`undefined` prop shadows the default); otherwise use `defaultVariants`
directly. -/
def effectiveVariants (defaultVariants : Defaults)
    (variantProps : VariantSelections) : VariantSelections :=
  if !variantProps.isEmpty then spreadObj defaultVariants variantProps
  else defaultVariants

/-- `resolveStyles`: apply the four layers — base, variants (in declaration
order), matching compound variants (in list order), inline — into a shared
per-slot accumulator. -/
def resolveStyles (processed : ProcessedStyledConfig) (state : ComponentState)
    (variantProps : VariantSelections) (inlineStyles : Option SlotStyles) :
    Resolved :=
  let result := applyLayerStyles [] processed.base state processed.stateKeys
  let eff := effectiveVariants processed.defaultVariants variantProps
  let result :=
    processed.variants.foldl
      (fun result kv =>
        match jsGet eff kv.1 with
        | none => result
        | some variantValue =>
          match kv.2 with
          | none => result
          | some variantDefinition =>
            match jsGet variantDefinition variantValue with
            | some variantStyles =>
              applyLayerStyles result variantStyles state processed.stateKeys
            | none => result)
      result
  let result :=
    processed.compoundVariants.foldl
      (fun result compoundVariant =>
        if compoundVariantMatches compoundVariant eff then
          applyLayerStyles result compoundVariant.styles state processed.stateKeys
        else result)
      result
  match inlineStyles with
  | some inl => applyLayerStyles result inl state processed.stateKeys
  | none => result

-- ============================================================================
-- The styled factory (`createStyled`)
-- ============================================================================

/-- Component metadata (`$$OtuiComponentMeta`): ordered slot names and
state keys.  The `slotStyleMap` member is a type-level carrier with no
runtime payload and is omitted. -/
structure ComponentMeta where
  slots : List String
  stateKeys : List String
deriving DecidableEq, Repr

/-- A styleable target: the three symbol-keyed members `createStyled`
inspects — optional component metadata, the `$$StyledComponent` marker and
the `$$StyledConfig` payload. -/
structure Component where
  otuiComponentMeta : Option ComponentMeta
  styledComponentMarker : Bool
  storedStyledConfig : Option ProcessedStyledConfig
deriving DecidableEq, Repr

/-- `isStyledComponentDefinition`: both the `$$StyledComponent` and the
`$$StyledConfig` members are present. -/
def isStyledComponentDefinition (c : Component) : Bool :=
  c.styledComponentMarker && c.storedStyledConfig.isSome

/-- The record returned by `createStyled`. -/
structure StyledComponentDefinition where
  component : Component
  processed : ProcessedStyledConfig
  config : StyledConfig
  styledComponentMarker : Bool
  storedStyledConfig : ProcessedStyledConfig
  otuiComponentMeta : ComponentMeta
deriving DecidableEq, Repr

/-- View a styled definition as a styleable target again (its three
symbol-keyed members). -/
def StyledComponentDefinition.asComponent (d : StyledComponentDefinition) :
    Component where
  otuiComponentMeta := some d.otuiComponentMeta
  styledComponentMarker := d.styledComponentMarker
  storedStyledConfig := some d.storedStyledConfig

/-- `createStyled`: throw when the target carries no component metadata;
when the target is itself a styled definition, convert its stored
processed config back to an author-facing config and merge the new config
on top of it; then process the final config against the metadata's state
keys. -/
def createStyled (component : Component) (config : StyledConfig) :
    Except String StyledComponentDefinition :=
  match component.otuiComponentMeta with
  | none =>
    .error "styled() requires a component with OTUI metadata. Ensure the component has [$$OtuiComponentMeta] attached."
  | some meta =>
    let finalConfig :=
      if isStyledComponentDefinition component then
        match component.storedStyledConfig with
        | some baseConfig =>
          mergeStyledConfig
            { base := some baseConfig.base
              variants := some baseConfig.variants
              compoundVariants := some baseConfig.compoundVariants
              defaultVariants := some baseConfig.defaultVariants }
            config
        | none => config
      else config
    let processed := processStyledConfig finalConfig meta.stateKeys
    .ok
      { component := component
        processed := processed
        config := finalConfig
        styledComponentMarker := true
        storedStyledConfig := processed
        otuiComponentMeta := meta }

-- ============================================================================
-- Basic lemmas about the object model
-- ============================================================================

/-- Left-biased choice on optional values (the value a later write leaves
in place: `some` wins over the earlier state). -/
def oElse : Option β → Option β → Option β
  | some v, _ => some v
  | none, b => b

@[simp] theorem oElse_none_left (b : Option β) : oElse none b = b := rfl

@[simp] theorem oElse_some_left (v : β) (b : Option β) : oElse (some v) b = some v := rfl

@[simp] theorem oElse_none_right (a : Option β) : oElse a none = a := by
  cases a <;> rfl

theorem oElse_assoc (a b c : Option β) : oElse (oElse a b) c = oElse a (oElse b c) := by
  cases a <;> cases b <;> rfl

@[simp] theorem getOwn_nil (k : String) : getOwn ([] : List (String × α)) k = none := rfl

theorem getOwn_cons (e : String × α) (rest : List (String × α)) (k : String) :
    getOwn (e :: rest) k = if e.1 = k then some e.2 else getOwn rest k := rfl

theorem getOwn_setKey (o : List (String × α)) (k k' : String) (v : α) :
    getOwn (setKey o k v) k' = if k = k' then some v else getOwn o k' := by
  induction o with
  | nil => simp [setKey, getOwn]
  | cons e rest ih =>
    by_cases h : e.1 = k
    · simp only [setKey, h, if_pos rfl, getOwn]
      by_cases h' : k = k' <;> simp [h', h]
    · simp only [setKey, if_neg h, getOwn]
      by_cases h' : e.1 = k'
      · have : ¬ k = k' := fun hk => h (hk ▸ h')
        simp [h', this]
      · simp [h', ih]

@[simp] theorem getOwn_setKey_self (o : List (String × α)) (k : String) (v : α) :
    getOwn (setKey o k v) k = some v := by
  simp [getOwn_setKey]

theorem getOwn_setKey_ne (o : List (String × α)) {k k' : String} (v : α) (h : k ≠ k') :
    getOwn (setKey o k v) k' = getOwn o k' := by
  simp [getOwn_setKey, h]

@[simp] theorem hasOwnKey_nil (k : String) : hasOwnKey ([] : List (String × α)) k = false := rfl

theorem hasOwnKey_cons (e : String × α) (rest : List (String × α)) (k : String) :
    hasOwnKey (e :: rest) k = (decide (e.1 = k) || hasOwnKey rest k) := rfl

theorem hasOwnKey_eq_isSome_getOwn (o : List (String × α)) (k : String) :
    hasOwnKey o k = (getOwn o k).isSome := by
  induction o with
  | nil => rfl
  | cons e rest ih =>
    by_cases h : e.1 = k <;> simp [hasOwnKey_cons, getOwn_cons, h, ih]

theorem jsGet_def (o : List (String × Option α)) (k : String) :
    jsGet o k =
      match getOwn o k with
      | some v => v
      | none => none := rfl

-- ============================================================================
-- Generic last-write characterization of the mutation folds
-- ============================================================================

/-- The last write a sequence of entries performs through a per-entry
write function `w` (later entries win). -/
def lastWrite (w : γ → Option β) : List γ → Option β
  | [] => none
  | x :: l => oElse (lastWrite w l) (w x)

@[simp] theorem lastWrite_nil (w : γ → Option β) : lastWrite w [] = none := rfl

theorem lastWrite_cons (w : γ → Option β) (x : γ) (l : List γ) :
    lastWrite w (x :: l) = oElse (lastWrite w l) (w x) := rfl

theorem lastWrite_foldl (w : γ → Option β) (l : List γ) (a : Option β) :
    l.foldl (fun acc x => oElse (w x) acc) a = oElse (lastWrite w l) a := by
  induction l generalizing a with
  | nil => simp [lastWrite]
  | cons x l ih => simp only [List.foldl_cons, lastWrite, ih, oElse_assoc]

theorem lastWrite_append (w : γ → Option β) (l₁ l₂ : List γ) :
    lastWrite w (l₁ ++ l₂) = oElse (lastWrite w l₂) (lastWrite w l₁) := by
  induction l₁ with
  | nil => simp [lastWrite]
  | cons x l₁ ih =>
    simp only [List.cons_append, lastWrite]
    rw [show l₁.append l₂ = l₁ ++ l₂ from rfl, ih, oElse_assoc]

theorem lastWrite_congr {w w' : γ → Option β} (l : List γ) (h : ∀ x ∈ l, w x = w' x) :
    lastWrite w l = lastWrite w' l := by
  induction l with
  | nil => rfl
  | cons x l ih =>
    rw [lastWrite_cons, lastWrite_cons, h x (by simp),
      ih (fun y hy => h y (by simp [hy]))]

/-- Observational characterization of a mutation fold: when every step's
effect on the observation `O` is "write `w x` if defined, else keep", the
whole fold's effect is the last defined write, else the initial state. -/
theorem foldl_write_obs {σ γ : Type _} {β : Type _} (O : σ → Option β)
    (step : σ → γ → σ) (w : γ → Option β)
    (h : ∀ r x, O (step r x) = oElse (w x) (O r)) :
    ∀ (l : List γ) (r : σ), O (l.foldl step r) = oElse (lastWrite w l) (O r) := by
  intro l
  induction l with
  | nil => simp
  | cons x l ih =>
    intro r
    simp only [List.foldl_cons, ih, h, lastWrite_cons, oElse_assoc]

/-- Observational characterization of a mutation fold on a boolean
observation (key presence): each step can only switch the observation on. -/
theorem foldl_bool_obs {σ γ : Type _} (O : σ → Bool)
    (step : σ → γ → σ) (w : γ → Bool)
    (h : ∀ r x, O (step r x) = (w x || O r)) :
    ∀ (l : List γ) (r : σ), O (l.foldl step r) = (l.any w || O r) := by
  intro l
  induction l with
  | nil => simp
  | cons x l ih =>
    intro r
    simp only [List.foldl_cons, ih, h, List.any_cons]
    cases w x <;> cases O r <;> simp

-- ============================================================================
-- Characterizing `flattenSlotStyle`
-- ============================================================================

/-- The write the non-selector copy loop of `flattenSlotStyle` performs
for one style entry, at property `p`. -/
def plainEntryWrite (p : String) (kv : String × JVal) : Option JVal :=
  if !isSelectorKey kv.1 then
    match kv.2 with
    | .undef => none
    | v => if kv.1 = p then some v else none
  else none

/-- The write the selector-merging loop performs for one selector-style
entry, at property `p`. -/
def selEntryWrite (p : String) (kv : String × Option String) : Option JVal :=
  match kv.2 with
  | none => none
  | some v => if kv.1 = p then some (.prim v) else none

/-- The write one state key contributes in `flattenSlotStyle`'s selector
loop, at property `p`: nothing unless the state key reads `true` and the
slot style holds a plain-object selector style for it. -/
def stateKeyWrite (slotStyle : Style) (state : ComponentState) (p : String)
    (stateKey : String) : Option JVal :=
  if getOwn state stateKey = some true then
    match getOwn slotStyle (selectorKey stateKey) with
    | some (.obj selectorStyle) => lastWrite (selEntryWrite p) selectorStyle
    | _ => none
  else none

/-- The total write `flattenSlotStyle` performs at property `p`: the last
active state selector that sets `p` wins, else the last defined
non-selector entry for `p`. -/
def flatWrite (slotStyle : Style) (state : ComponentState)
    (stateKeys : List String) (p : String) : Option JVal :=
  oElse (lastWrite (stateKeyWrite slotStyle state p) stateKeys)
    (lastWrite (plainEntryWrite p) slotStyle)

theorem getOwn_flattenSlotStyle (r : Flat) (s : Style) (st : ComponentState)
    (sk : List String) (p : String) :
    getOwn (flattenSlotStyle r s st sk) p = oElse (flatWrite s st sk p) (getOwn r p) := by
  have h1 : ∀ (r : Flat),
      getOwn (s.foldl (fun result kv =>
        if !isSelectorKey kv.1 then
          match kv.2 with
          | .undef => result
          | v => setKey result kv.1 v
        else result) r) p
      = oElse (lastWrite (plainEntryWrite p) s) (getOwn r p) := by
    intro r
    refine foldl_write_obs (fun r => getOwn r p) _ (plainEntryWrite p) ?_ s r
    intro r kv
    by_cases hsel : isSelectorKey kv.1
    · simp [plainEntryWrite, hsel]
    · cases hv : kv.2 with
      | undef => simp [plainEntryWrite, hsel, hv]
      | prim a =>
        simp only [plainEntryWrite, hsel, hv, Bool.not_false, if_true]
        rw [getOwn_setKey]
        by_cases hp : kv.1 = p <;> simp [hp]
      | obj f =>
        simp only [plainEntryWrite, hsel, hv, Bool.not_false, if_true]
        rw [getOwn_setKey]
        by_cases hp : kv.1 = p <;> simp [hp]
  have h2 : ∀ (r : Flat),
      getOwn (sk.foldl (fun result stateKey =>
        if getOwn st stateKey = some true then
          match getOwn s (selectorKey stateKey) with
          | some (.obj selectorStyle) =>
            selectorStyle.foldl
              (fun result kv =>
                match kv.2 with
                | none => result
                | some v => setKey result kv.1 (.prim v))
              result
          | _ => result
        else result) r) p
      = oElse (lastWrite (stateKeyWrite s st p) sk) (getOwn r p) := by
    intro r
    refine foldl_write_obs (fun r => getOwn r p) _ (stateKeyWrite s st p) ?_ sk r
    intro r stateKey
    by_cases hact : getOwn st stateKey = some true
    · rcases hsv : getOwn s (selectorKey stateKey) with _ | v
      · simp [stateKeyWrite, hact, hsv]
      · cases v with
        | undef => simp [stateKeyWrite, hact, hsv]
        | prim a => simp [stateKeyWrite, hact, hsv]
        | obj f =>
          simp only [stateKeyWrite, if_pos hact, hsv]
          refine foldl_write_obs (fun r => getOwn r p) _ (selEntryWrite p) ?_ f r
          intro r kv
          cases hv : kv.2 with
          | none => simp [selEntryWrite, hv]
          | some v =>
            simp only [selEntryWrite, hv]
            rw [getOwn_setKey]
            by_cases hp : kv.1 = p <;> simp [hp]
    · simp [stateKeyWrite, hact]
  show getOwn (List.foldl _ (List.foldl _ r s) sk) p = _
  rw [h2, h1, flatWrite, oElse_assoc]

-- ============================================================================
-- Characterizing `applyLayerStyles` and `resolveStyles`
-- ============================================================================

/-- Look up property `p` of slot `slot` in a resolver result. -/
def resolvedGet (result : Resolved) (slot p : String) : Option JVal :=
  match getOwn result slot with
  | some flat => getOwn flat p
  | none => none

/-- The write one layer entry performs at `(slot, p)`. -/
def layerEntryWrite (state : ComponentState) (stateKeys : List String)
    (slot p : String) (kv : String × Option Style) : Option JVal :=
  match kv.2 with
  | none => none
  | some style => if kv.1 = slot then flatWrite style state stateKeys p else none

/-- The write a whole layer performs at `(slot, p)`. -/
def layerWrite (slotStyles : SlotStyles) (state : ComponentState)
    (stateKeys : List String) (slot p : String) : Option JVal :=
  lastWrite (layerEntryWrite state stateKeys slot p) slotStyles

theorem resolvedGet_applyLayerStyles (res : Resolved) (L : SlotStyles)
    (st : ComponentState) (sk : List String) (slot p : String) :
    resolvedGet (applyLayerStyles res L st sk) slot p =
      oElse (layerWrite L st sk slot p) (resolvedGet res slot p) := by
  refine foldl_write_obs (fun res => resolvedGet res slot p) _
    (layerEntryWrite st sk slot p) ?_ L res
  intro r kv
  cases hv : kv.2 with
  | none => simp [layerEntryWrite, hv]
  | some style =>
    simp only [layerEntryWrite, hv]
    by_cases hs : kv.1 = slot
    · subst hs
      simp only [resolvedGet, getOwn_setKey_self, if_pos rfl]
      rw [getOwn_flattenSlotStyle]
      rcases hr : getOwn r kv.1 with _ | f <;> simp [hr, Option.getD]
    · simp only [resolvedGet, if_neg hs, getOwn_setKey_ne _ _ hs, oElse_none_left]

/-- Whether a layer entry defines the slot (creating it in the result). -/
def layerEntryHas (slot : String) (kv : String × Option Style) : Bool :=
  if kv.1 = slot then kv.2.isSome else false

theorem hasOwnKey_setKey (o : List (String × α)) (k k' : String) (v : α) :
    hasOwnKey (setKey o k v) k' = (decide (k = k') || hasOwnKey o k') := by
  rw [hasOwnKey_eq_isSome_getOwn, hasOwnKey_eq_isSome_getOwn, getOwn_setKey]
  by_cases h : k = k' <;> simp [h]

theorem hasOwnKey_applyLayerStyles (res : Resolved) (L : SlotStyles)
    (st : ComponentState) (sk : List String) (slot : String) :
    hasOwnKey (applyLayerStyles res L st sk) slot =
      (L.any (layerEntryHas slot) || hasOwnKey res slot) := by
  refine foldl_bool_obs (fun res => hasOwnKey res slot) _ (layerEntryHas slot) ?_ L res
  intro r kv
  cases hv : kv.2 with
  | none => simp [layerEntryHas, hv]
  | some style =>
    simp only [layerEntryHas, hv]
    rw [hasOwnKey_setKey]
    by_cases hs : kv.1 = slot <;> simp [hs]

/-- The write the variant layer performs for one declared variant. -/
def variantEntryWrite (eff : VariantSelections) (state : ComponentState)
    (stateKeys : List String) (slot p : String)
    (kv : String × Option VariantDef) : Option JVal :=
  match jsGet eff kv.1 with
  | none => none
  | some variantValue =>
    match kv.2 with
    | none => none
    | some variantDefinition =>
      match jsGet variantDefinition variantValue with
      | some variantStyles => layerWrite variantStyles state stateKeys slot p
      | none => none

/-- The write of the whole variant layer. -/
def variantsWrite (variants : Variants) (eff : VariantSelections)
    (state : ComponentState) (stateKeys : List String) (slot p : String) :
    Option JVal :=
  lastWrite (variantEntryWrite eff state stateKeys slot p) variants

/-- The write one compound-variant entry performs. -/
def compoundEntryWrite (eff : VariantSelections) (state : ComponentState)
    (stateKeys : List String) (slot p : String) (cv : CompoundVariant) :
    Option JVal :=
  if compoundVariantMatches cv eff then layerWrite cv.styles state stateKeys slot p
  else none

/-- The write of the whole compound layer. -/
def compoundsWrite (compounds : List CompoundVariant) (eff : VariantSelections)
    (state : ComponentState) (stateKeys : List String) (slot p : String) :
    Option JVal :=
  lastWrite (compoundEntryWrite eff state stateKeys slot p) compounds

/-- The write of the inline layer. -/
def inlineWrite (inl : Option SlotStyles) (state : ComponentState)
    (stateKeys : List String) (slot p : String) : Option JVal :=
  match inl with
  | some i => layerWrite i state stateKeys slot p
  | none => none

theorem resolvedGet_resolveStyles (P : ProcessedStyledConfig)
    (st : ComponentState) (vp : VariantSelections) (inl : Option SlotStyles)
    (slot p : String) :
    resolvedGet (resolveStyles P st vp inl) slot p =
      oElse (inlineWrite inl st P.stateKeys slot p)
        (oElse (compoundsWrite P.compoundVariants
            (effectiveVariants P.defaultVariants vp) st P.stateKeys slot p)
          (oElse (variantsWrite P.variants
              (effectiveVariants P.defaultVariants vp) st P.stateKeys slot p)
            (layerWrite P.base st P.stateKeys slot p))) := by
  have hvar : ∀ (r : Resolved),
      resolvedGet (P.variants.foldl (fun result kv =>
        match jsGet (effectiveVariants P.defaultVariants vp) kv.1 with
        | none => result
        | some variantValue =>
          match kv.2 with
          | none => result
          | some variantDefinition =>
            match jsGet variantDefinition variantValue with
            | some variantStyles =>
              applyLayerStyles result variantStyles st P.stateKeys
            | none => result) r) slot p
      = oElse (variantsWrite P.variants (effectiveVariants P.defaultVariants vp)
          st P.stateKeys slot p) (resolvedGet r slot p) := by
    intro r
    refine foldl_write_obs (fun res => resolvedGet res slot p) _ _ ?_ P.variants r
    intro r kv
    rcases hev : jsGet (effectiveVariants P.defaultVariants vp) kv.1 with _ | value
    · simp [variantEntryWrite, hev]
    · cases hv : kv.2 with
      | none => simp [variantEntryWrite, hev, hv]
      | some vdef =>
        rcases hvv : jsGet vdef value with _ | styles
        · simp [variantEntryWrite, hev, hv, hvv]
        · simp [variantEntryWrite, hev, hv, hvv, resolvedGet_applyLayerStyles]
  have hcomp : ∀ (r : Resolved),
      resolvedGet (P.compoundVariants.foldl (fun result compoundVariant =>
        if compoundVariantMatches compoundVariant (effectiveVariants P.defaultVariants vp) then
          applyLayerStyles result compoundVariant.styles st P.stateKeys
        else result) r) slot p
      = oElse (compoundsWrite P.compoundVariants
          (effectiveVariants P.defaultVariants vp) st P.stateKeys slot p)
          (resolvedGet r slot p) := by
    intro r
    refine foldl_write_obs (fun res => resolvedGet res slot p) _ _ ?_ P.compoundVariants r
    intro r cv
    by_cases hm : compoundVariantMatches cv (effectiveVariants P.defaultVariants vp)
    · simp [compoundEntryWrite, hm, resolvedGet_applyLayerStyles]
    · simp [compoundEntryWrite, hm]
  show resolvedGet (match inl with
    | some i => applyLayerStyles _ i st P.stateKeys
    | none => _) slot p = _
  cases inl with
  | none =>
    simp only [inlineWrite, oElse_none_left]
    rw [hcomp, hvar, resolvedGet_applyLayerStyles]
    simp [resolvedGet, oElse_assoc]
  | some i =>
    simp only [inlineWrite]
    rw [resolvedGet_applyLayerStyles, hcomp, hvar, resolvedGet_applyLayerStyles]
    simp [resolvedGet, oElse_assoc]

/-- Whether one declared variant contributes a definition of `slot`. -/
def variantEntryHas (eff : VariantSelections) (slot : String)
    (kv : String × Option VariantDef) : Bool :=
  match jsGet eff kv.1 with
  | none => false
  | some variantValue =>
    match kv.2 with
    | none => false
    | some variantDefinition =>
      match jsGet variantDefinition variantValue with
      | some variantStyles => variantStyles.any (layerEntryHas slot)
      | none => false

/-- Whether one compound-variant entry contributes a definition of `slot`. -/
def compoundEntryHas (eff : VariantSelections) (slot : String)
    (cv : CompoundVariant) : Bool :=
  if compoundVariantMatches cv eff then cv.styles.any (layerEntryHas slot)
  else false

/-- Whether the inline layer contributes a definition of `slot`. -/
def inlineHas (inl : Option SlotStyles) (slot : String) : Bool :=
  match inl with
  | some i => i.any (layerEntryHas slot)
  | none => false

theorem hasOwnKey_resolveStyles (P : ProcessedStyledConfig)
    (st : ComponentState) (vp : VariantSelections) (inl : Option SlotStyles)
    (slot : String) :
    hasOwnKey (resolveStyles P st vp inl) slot =
      (inlineHas inl slot ||
        (P.compoundVariants.any
            (compoundEntryHas (effectiveVariants P.defaultVariants vp) slot) ||
          (P.variants.any
              (variantEntryHas (effectiveVariants P.defaultVariants vp) slot) ||
            P.base.any (layerEntryHas slot)))) := by
  have hvar : ∀ (r : Resolved),
      hasOwnKey (P.variants.foldl (fun result kv =>
        match jsGet (effectiveVariants P.defaultVariants vp) kv.1 with
        | none => result
        | some variantValue =>
          match kv.2 with
          | none => result
          | some variantDefinition =>
            match jsGet variantDefinition variantValue with
            | some variantStyles =>
              applyLayerStyles result variantStyles st P.stateKeys
            | none => result) r) slot
      = (P.variants.any (variantEntryHas (effectiveVariants P.defaultVariants vp) slot)
          || hasOwnKey r slot) := by
    intro r
    refine foldl_bool_obs (fun res => hasOwnKey res slot) _ _ ?_ P.variants r
    intro r kv
    rcases hev : jsGet (effectiveVariants P.defaultVariants vp) kv.1 with _ | value
    · simp [variantEntryHas, hev]
    · cases hv : kv.2 with
      | none => simp [variantEntryHas, hev, hv]
      | some vdef =>
        rcases hvv : jsGet vdef value with _ | styles
        · simp [variantEntryHas, hev, hv, hvv]
        · simp [variantEntryHas, hev, hv, hvv, hasOwnKey_applyLayerStyles]
  have hcomp : ∀ (r : Resolved),
      hasOwnKey (P.compoundVariants.foldl (fun result compoundVariant =>
        if compoundVariantMatches compoundVariant (effectiveVariants P.defaultVariants vp) then
          applyLayerStyles result compoundVariant.styles st P.stateKeys
        else result) r) slot
      = (P.compoundVariants.any
            (compoundEntryHas (effectiveVariants P.defaultVariants vp) slot)
          || hasOwnKey r slot) := by
    intro r
    refine foldl_bool_obs (fun res => hasOwnKey res slot) _ _ ?_ P.compoundVariants r
    intro r cv
    by_cases hm : compoundVariantMatches cv (effectiveVariants P.defaultVariants vp)
    · simp [compoundEntryHas, hm, hasOwnKey_applyLayerStyles]
    · simp [compoundEntryHas, hm]
  show hasOwnKey (match inl with
    | some i => applyLayerStyles _ i st P.stateKeys
    | none => _) slot = _
  cases inl with
  | none =>
    simp only [inlineHas, Bool.false_or]
    rw [hcomp, hvar, hasOwnKey_applyLayerStyles]
    simp [Bool.or_assoc]
  | some i =>
    simp only [inlineHas]
    rw [hasOwnKey_applyLayerStyles, hcomp, hvar, hasOwnKey_applyLayerStyles]
    simp [Bool.or_assoc]

-- ============================================================================
-- C1: four layers in fixed order, property-by-property precedence
-- ============================================================================

/-- **C1.**  `resolveStyles` applies exactly the four layers base →
variants → compound variants → inline into a shared per-slot accumulator,
merging property-by-property (never slot-wise): the value of any property
in the resolved output is the write of the latest layer that sets it —
inline over compound over variant over base. -/
theorem c1_resolve_layer_precedence (P : ProcessedStyledConfig)
    (st : ComponentState) (vp : VariantSelections) (inl : Option SlotStyles)
    (slot p : String) :
    resolvedGet (resolveStyles P st vp inl) slot p =
      oElse (inlineWrite inl st P.stateKeys slot p)
        (oElse (compoundsWrite P.compoundVariants
            (effectiveVariants P.defaultVariants vp) st P.stateKeys slot p)
          (oElse (variantsWrite P.variants
              (effectiveVariants P.defaultVariants vp) st P.stateKeys slot p)
            (layerWrite P.base st P.stateKeys slot p))) :=
  resolvedGet_resolveStyles P st vp inl slot p

-- ============================================================================
-- C5: a compound-variant entry with no conditions never applies
-- ============================================================================

/-- **C5.**  A compound-variant entry whose condition set is empty never
matches — for any effective variant values — and therefore contributes
nothing to the resolved output: deleting it from the compound list leaves
every resolved slot/property, and the set of resolved slots, unchanged. -/
theorem c5_empty_conditions_never_match
    (cv : CompoundVariant) (hcond : cv.conditions = [])
    (P : ProcessedStyledConfig) (cs₁ cs₂ : List CompoundVariant)
    (hsplit : P.compoundVariants = cs₁ ++ cv :: cs₂)
    (eff : VariantSelections) (st : ComponentState) (vp : VariantSelections)
    (inl : Option SlotStyles) (slot p : String) :
    compoundVariantMatches cv eff = false ∧
    resolvedGet (resolveStyles P st vp inl) slot p =
      resolvedGet (resolveStyles { P with compoundVariants := cs₁ ++ cs₂ } st vp inl)
        slot p ∧
    hasOwnKey (resolveStyles P st vp inl) slot =
      hasOwnKey (resolveStyles { P with compoundVariants := cs₁ ++ cs₂ } st vp inl)
        slot := by
  have hm : ∀ e : VariantSelections, compoundVariantMatches cv e = false := by
    intro e
    simp [compoundVariantMatches, hcond]
  refine ⟨hm eff, ?_, ?_⟩
  · rw [resolvedGet_resolveStyles, resolvedGet_resolveStyles]
    simp only [hsplit]
    have hw : ∀ e st' sk' s' p',
        compoundsWrite (cs₁ ++ cv :: cs₂) e st' sk' s' p' =
          compoundsWrite (cs₁ ++ cs₂) e st' sk' s' p' := by
      intro e st' sk' s' p'
      unfold compoundsWrite
      rw [lastWrite_append, lastWrite_append, lastWrite_cons]
      simp [compoundEntryWrite, hm]
    rw [hw]
  · rw [hasOwnKey_resolveStyles, hasOwnKey_resolveStyles]
    simp only [hsplit]
    have hh : ∀ e s',
        (cs₁ ++ cv :: cs₂).any (compoundEntryHas e s') =
          (cs₁ ++ cs₂).any (compoundEntryHas e s') := by
      intro e s'
      simp [compoundEntryHas, hm]
    rw [hh]

/-- Witness for C5 at a concrete config: one condition-free compound entry
carrying styles, which matches nothing and leaves resolution at the base
styles. -/
theorem c5_empty_conditions_never_match_witness :
    compoundVariantMatches ⟨[], [("root", some [("fg", .prim "x")])]⟩
      [("intent", some "a")] = false ∧
    resolvedGet
      (resolveStyles
        { base := [("root", some [("fg", .prim "white")])]
          variants := []
          compoundVariants := [⟨[], [("root", some [("fg", .prim "x")])]⟩]
          defaultVariants := []
          stateKeys := []
          variantNameSet := [] } [] [] none) "root" "fg" =
      resolvedGet
        (resolveStyles
          { base := [("root", some [("fg", .prim "white")])]
            variants := []
            compoundVariants := [] ++ []
            defaultVariants := []
            stateKeys := []
            variantNameSet := [] } [] [] none) "root" "fg" := by
  refine ⟨?_, ?_⟩
  · exact (c5_empty_conditions_never_match ⟨[], [("root", some [("fg", .prim "x")])]⟩
      rfl
      { base := [("root", some [("fg", .prim "white")])]
        variants := []
        compoundVariants := [⟨[], [("root", some [("fg", .prim "x")])]⟩]
        defaultVariants := []
        stateKeys := []
        variantNameSet := [] } [] [] rfl [("intent", some "a")] [] [] none "root" "fg").1
  · exact (c5_empty_conditions_never_match ⟨[], [("root", some [("fg", .prim "x")])]⟩
      rfl
      { base := [("root", some [("fg", .prim "white")])]
        variants := []
        compoundVariants := [⟨[], [("root", some [("fg", .prim "x")])]⟩]
        defaultVariants := []
        stateKeys := []
        variantNameSet := [] } [] [] rfl [("intent", some "a")] [] [] none "root" "fg").2.1

-- ============================================================================
-- C9: createStyled throws iff the target has no metadata
-- ============================================================================

/-- **C9.**  `createStyled` returns successfully exactly when the target
carries component metadata; with no metadata it throws (returns the
error), and with metadata present it never throws. -/
theorem c9_createStyled_ok_iff_metadata (c : Component) (config : StyledConfig) :
    (createStyled c config).isOk = c.otuiComponentMeta.isSome := by
  unfold createStyled
  cases c.otuiComponentMeta <;> rfl

-- ============================================================================
-- Further lastWrite / lookup helpers
-- ============================================================================

theorem lastWrite_eq_none {w : γ → Option β} {l : List γ}
    (h : ∀ x ∈ l, w x = none) : lastWrite w l = none := by
  induction l with
  | nil => rfl
  | cons x l ih =>
    rw [lastWrite_cons, h x (by simp), ih (fun y hy => h y (by simp [hy]))]
    rfl

/-- The value of the last occurrence of key `k` in an entry list (what a
sequence of JavaScript assignments leaves at `k`). -/
def lastEntry (l : List (String × α)) (k : String) : Option α :=
  lastWrite (fun kv => if kv.1 = k then some kv.2 else none) l

theorem lastEntry_cons (e : String × α) (rest : List (String × α)) (k : String) :
    lastEntry (e :: rest) k =
      oElse (lastEntry rest k) (if e.1 = k then some e.2 else none) := rfl

theorem getOwn_spreadObj (t s : List (String × α)) (k : String) :
    getOwn (spreadObj t s) k = oElse (lastEntry s k) (getOwn t k) := by
  refine foldl_write_obs (fun o => getOwn o k) _ _ ?_ s t
  intro r kv
  show getOwn (setKey r kv.1 kv.2) k =
    oElse (if kv.1 = k then some kv.2 else none) (getOwn r k)
  rw [getOwn_setKey]
  by_cases h : kv.1 = k <;> simp [h]

theorem not_mem_keysOf_iff (l : List (String × α)) (k : String) :
    k ∉ keysOf l ↔ ∀ kv ∈ l, kv.1 ≠ k := by
  simp only [keysOf, List.mem_map, not_exists, not_and]

theorem lastEntry_eq_none_of_not_mem {l : List (String × α)} {k : String}
    (h : k ∉ keysOf l) : lastEntry l k = none := by
  refine lastWrite_eq_none ?_
  intro kv hkv
  rw [if_neg ((not_mem_keysOf_iff l k).1 h kv hkv)]

theorem getOwn_eq_none_of_not_mem {l : List (String × α)} {k : String}
    (h : k ∉ keysOf l) : getOwn l k = none := by
  induction l with
  | nil => rfl
  | cons e rest ih =>
    simp only [keysOf, List.map_cons, List.mem_cons, not_or] at h
    rw [getOwn_cons, if_neg (fun he => h.1 he.symm)]
    exact ih (by simpa [keysOf] using h.2)

theorem lastEntry_eq_getOwn_of_nodup {l : List (String × α)}
    (hnd : (keysOf l).Nodup) (k : String) : lastEntry l k = getOwn l k := by
  induction l with
  | nil => rfl
  | cons e rest ih =>
    simp only [keysOf, List.map_cons, List.nodup_cons] at hnd
    rw [lastEntry_cons, getOwn_cons]
    by_cases h : e.1 = k
    · rw [if_pos h, if_pos h,
        lastEntry_eq_none_of_not_mem (show k ∉ keysOf rest from h ▸ hnd.1)]
      rfl
    · rw [if_neg h, if_neg h, ih hnd.2, oElse_none_right]

theorem hasOwnKey_eq_false_iff (l : List (String × α)) (k : String) :
    hasOwnKey l k = false ↔ k ∉ keysOf l := by
  induction l with
  | nil => simp [keysOf]
  | cons e rest ih =>
    rw [hasOwnKey_cons]
    simp only [keysOf, List.map_cons, List.mem_cons, Bool.or_eq_false_iff,
      decide_eq_false_iff_not, not_or]
    constructor
    · rintro ⟨h1, h2⟩
      exact ⟨fun hk => h1 hk.symm, (ih.1 h2 : _)⟩
    · rintro ⟨h1, h2⟩
      exact ⟨fun hk => h1 hk.symm, ih.2 h2⟩

/-- Lookup of the effective variant values when the variant props contain
the name (with no duplicate prop keys): the prop's value — even an
explicit `undefined` — shadows the default. -/
theorem getOwn_effectiveVariants_of_mem (d : Defaults) (vp : VariantSelections)
    (hnd : (keysOf vp).Nodup) (name : String) (ov : Option String)
    (hv : getOwn vp name = some ov) :
    getOwn (effectiveVariants d vp) name = some ov := by
  have hne : ¬ vp.isEmpty := by
    cases vp with
    | nil => simp [getOwn] at hv
    | cons e rest => simp [List.isEmpty]
  rw [effectiveVariants, if_pos (by simpa using hne), getOwn_spreadObj,
    lastEntry_eq_getOwn_of_nodup hnd, hv]
  rfl

/-- Lookup of the effective variant values when the variant props do not
contain the name: falls back to the default. -/
theorem jsGet_effectiveVariants_of_not_mem (d : Defaults) (vp : VariantSelections)
    (name : String) (hv : hasOwnKey vp name = false) :
    jsGet (effectiveVariants d vp) name = jsGet d name := by
  by_cases he : vp.isEmpty
  · rw [effectiveVariants, if_neg (by simpa using he)]
  · rw [effectiveVariants, if_pos (by simpa using he)]
    unfold jsGet
    rw [getOwn_spreadObj,
      lastEntry_eq_none_of_not_mem ((hasOwnKey_eq_false_iff vp name).1 hv)]
    rfl

-- ============================================================================
-- C8: state-selector gating and declared-order precedence
-- ============================================================================

/-- **C8.**  Within a layer's per-slot flattening: a state key whose state
value is not `true` contributes nothing (removing it from the declared
state keys leaves the flattened result unchanged), and when two active
state keys both set the same property, the later-declared one wins — its
selector value is the result, regardless of the plain properties copied
first and of any earlier selector writes. -/
theorem c8_state_selector_gating_and_order (r : Flat) (s : Style)
    (st : ComponentState) (p : String) :
    (∀ (k : String) (sk₁ sk₂ : List String), ¬ getOwn st k = some true →
      flattenSlotStyle r s st (sk₁ ++ k :: sk₂) = flattenSlotStyle r s st (sk₁ ++ sk₂)) ∧
    (∀ (k₁ k₂ : String) (sk₁ sk₂ sk₃ : List String)
        (f₁ f₂ : List (String × Option String)) (v₁ v₂ : JVal),
      getOwn st k₁ = some true → getOwn st k₂ = some true →
      getOwn s (selectorKey k₁) = some (.obj f₁) →
      getOwn s (selectorKey k₂) = some (.obj f₂) →
      lastWrite (selEntryWrite p) f₁ = some v₁ →
      lastWrite (selEntryWrite p) f₂ = some v₂ →
      (∀ k ∈ sk₃, stateKeyWrite s st p k = none) →
      getOwn (flattenSlotStyle r s st (sk₁ ++ k₁ :: (sk₂ ++ k₂ :: sk₃))) p = some v₂) := by
  constructor
  · intro k sk₁ sk₂ hk
    show List.foldl _ (List.foldl _ r s) (sk₁ ++ k :: sk₂) =
      List.foldl _ (List.foldl _ r s) (sk₁ ++ sk₂)
    rw [List.foldl_append, List.foldl_append, List.foldl_cons, if_neg hk]
  · intro k₁ k₂ sk₁ sk₂ sk₃ f₁ f₂ v₁ v₂ hk₁ hk₂ hf₁ hf₂ hw₁ hw₂ h₃
    rw [getOwn_flattenSlotStyle]
    have hkey : lastWrite (stateKeyWrite s st p) (sk₁ ++ k₁ :: (sk₂ ++ k₂ :: sk₃)) =
        some v₂ := by
      rw [lastWrite_append, lastWrite_cons, lastWrite_append, lastWrite_cons,
        lastWrite_eq_none h₃]
      have h2 : stateKeyWrite s st p k₂ = some v₂ := by
        rw [stateKeyWrite, if_pos hk₂, hf₂]
        exact hw₂
      rw [h2]
      rfl
    rw [flatWrite, hkey]
    rfl

/-- Witness for C8 at concrete data: state keys `checked` before
`focused`, both active, both selectors setting `fg` — the later-declared
`focused` wins; and the inactive key `hovered` can be dropped. -/
theorem c8_state_selector_gating_and_order_witness :
    flattenSlotStyle []
        [("fg", .prim "white"), ("_checked", .obj [("fg", some "blue")]),
          ("_focused", .obj [("fg", some "green")])]
        [("checked", true), ("focused", true)] (["hovered"] ++ ["checked", "focused"]) =
      flattenSlotStyle []
        [("fg", .prim "white"), ("_checked", .obj [("fg", some "blue")]),
          ("_focused", .obj [("fg", some "green")])]
        [("checked", true), ("focused", true)] ([] ++ ["checked", "focused"]) ∧
    getOwn (flattenSlotStyle []
        [("fg", .prim "white"), ("_checked", .obj [("fg", some "blue")]),
          ("_focused", .obj [("fg", some "green")])]
        [("checked", true), ("focused", true)] ([] ++ "checked" :: ([] ++ "focused" :: []))) "fg" =
      some (.prim "green") := by
  constructor
  · exact (c8_state_selector_gating_and_order []
      [("fg", .prim "white"), ("_checked", .obj [("fg", some "blue")]),
        ("_focused", .obj [("fg", some "green")])]
      [("checked", true), ("focused", true)] "fg").1 "hovered" [] ["checked", "focused"]
      (by decide)
  · exact (c8_state_selector_gating_and_order []
      [("fg", .prim "white"), ("_checked", .obj [("fg", some "blue")]),
        ("_focused", .obj [("fg", some "green")])]
      [("checked", true), ("focused", true)] "fg").2 "checked" "focused" [] [] []
      [("fg", some "blue")] [("fg", some "green")] (.prim "blue") (.prim "green")
      (by decide) (by decide) (by decide) (by decide) (by decide) (by decide)
      (by intro k hk; simp at hk)

-- ============================================================================
-- C6: all matching compound variants apply, in list order
-- ============================================================================

/-- **C6.**  When several compound-variant entries match, every one of
them is applied in list order: on a property both set, the later-listed
entry's value is the resolved value; on a property only the earlier entry
sets (and no later matching entry touches), the earlier entry's value
survives — so matching entries are not reduced to the first match. -/
theorem c6_matching_compounds_apply_in_order (P : ProcessedStyledConfig)
    (st : ComponentState) (vp : VariantSelections)
    (cs₁ cs₂ cs₃ : List CompoundVariant) (ca cb : CompoundVariant)
    (hsplit : P.compoundVariants = cs₁ ++ ca :: (cs₂ ++ cb :: cs₃))
    (hma : compoundVariantMatches ca (effectiveVariants P.defaultVariants vp) = true)
    (hmb : compoundVariantMatches cb (effectiveVariants P.defaultVariants vp) = true)
    (slot p q : String) (va vb w : JVal)
    (hpa : layerWrite ca.styles st P.stateKeys slot p = some va)
    (hpb : layerWrite cb.styles st P.stateKeys slot p = some vb)
    (hqa : layerWrite ca.styles st P.stateKeys slot q = some w)
    (hqb : layerWrite cb.styles st P.stateKeys slot q = none)
    (h₃p : ∀ c ∈ cs₃,
      compoundEntryWrite (effectiveVariants P.defaultVariants vp) st P.stateKeys slot p c = none)
    (h₂q : ∀ c ∈ cs₂,
      compoundEntryWrite (effectiveVariants P.defaultVariants vp) st P.stateKeys slot q c = none)
    (h₃q : ∀ c ∈ cs₃,
      compoundEntryWrite (effectiveVariants P.defaultVariants vp) st P.stateKeys slot q c = none) :
    resolvedGet (resolveStyles P st vp none) slot p = some vb ∧
    resolvedGet (resolveStyles P st vp none) slot q = some w := by
  constructor
  · rw [resolvedGet_resolveStyles]
    have hc : compoundsWrite P.compoundVariants (effectiveVariants P.defaultVariants vp)
        st P.stateKeys slot p = some vb := by
      rw [hsplit]
      unfold compoundsWrite
      rw [lastWrite_append, lastWrite_cons, lastWrite_append, lastWrite_cons,
        lastWrite_eq_none h₃p]
      have hb : compoundEntryWrite (effectiveVariants P.defaultVariants vp) st
          P.stateKeys slot p cb = some vb := by
        rw [compoundEntryWrite, if_pos hmb, hpb]
      rw [hb]
      rfl
    rw [hc]
    rfl
  · rw [resolvedGet_resolveStyles]
    have hc : compoundsWrite P.compoundVariants (effectiveVariants P.defaultVariants vp)
        st P.stateKeys slot q = some w := by
      rw [hsplit]
      unfold compoundsWrite
      rw [lastWrite_append, lastWrite_cons, lastWrite_append, lastWrite_cons,
        lastWrite_eq_none h₃q, lastWrite_eq_none h₂q]
      have hb : compoundEntryWrite (effectiveVariants P.defaultVariants vp) st
          P.stateKeys slot q cb = none := by
        rw [compoundEntryWrite, if_pos hmb, hqb]
      have ha : compoundEntryWrite (effectiveVariants P.defaultVariants vp) st
          P.stateKeys slot q ca = some w := by
        rw [compoundEntryWrite, if_pos hma, hqa]
      rw [hb, ha]
      rfl
    rw [hc]
    rfl

/-- Witness for C6: two compound entries with disjoint conditions, both
matching through the defaults; the later entry wins on `fg`, while the
earlier entry's `pad` still applies. -/
theorem c6_matching_compounds_apply_in_order_witness :
    resolvedGet
      (resolveStyles
        { base := []
          variants := []
          compoundVariants :=
            [⟨[("size", some "lg")], [("root", some [("fg", .prim "A"), ("pad", .prim "1")])]⟩,
              ⟨[("intent", some "danger")], [("root", some [("fg", .prim "B")])]⟩]
          defaultVariants := [("size", some "lg"), ("intent", some "danger")]
          stateKeys := []
          variantNameSet := [] } [] [] none) "root" "fg" = some (.prim "B") ∧
    resolvedGet
      (resolveStyles
        { base := []
          variants := []
          compoundVariants :=
            [⟨[("size", some "lg")], [("root", some [("fg", .prim "A"), ("pad", .prim "1")])]⟩,
              ⟨[("intent", some "danger")], [("root", some [("fg", .prim "B")])]⟩]
          defaultVariants := [("size", some "lg"), ("intent", some "danger")]
          stateKeys := []
          variantNameSet := [] } [] [] none) "root" "pad" = some (.prim "1") :=
  c6_matching_compounds_apply_in_order
    { base := []
      variants := []
      compoundVariants :=
        [⟨[("size", some "lg")], [("root", some [("fg", .prim "A"), ("pad", .prim "1")])]⟩,
          ⟨[("intent", some "danger")], [("root", some [("fg", .prim "B")])]⟩]
      defaultVariants := [("size", some "lg"), ("intent", some "danger")]
      stateKeys := []
      variantNameSet := [] } [] [] [] [] []
    ⟨[("size", some "lg")], [("root", some [("fg", .prim "A"), ("pad", .prim "1")])]⟩
    ⟨[("intent", some "danger")], [("root", some [("fg", .prim "B")])]⟩
    rfl (by decide) (by decide) "root" "fg" "pad" (.prim "A") (.prim "B") (.prim "1")
    (by decide) (by decide) (by decide) (by decide)
    (by intro c hc; simp at hc) (by intro c hc; simp at hc) (by intro c hc; simp at hc)

-- ============================================================================
-- C7: unknown variant values are silently ignored, default not substituted
-- ============================================================================

/-- **C7.**  `resolveStyles` is a total function (the embedding terminates
on every input; the source has no throwing path in resolution), and a
variant selection naming a value the variant does not declare contributes
no styles: the effective value stays the unknown one — the default is not
substituted — and deleting that variant from the config leaves every
resolved slot/property unchanged, so resolution falls through to the
remaining layers. -/
theorem c7_unknown_variant_value_silently_ignored (P : ProcessedStyledConfig)
    (vs₁ vs₂ : Variants) (name : String) (vdef : Option VariantDef)
    (hsplit : P.variants = vs₁ ++ (name, vdef) :: vs₂)
    (vp : VariantSelections) (hnd : (keysOf vp).Nodup) (val : String)
    (hsel : getOwn vp name = some (some val))
    (hunk : (vdef.bind fun d => jsGet d val) = none)
    (st : ComponentState) (inl : Option SlotStyles) (slot p : String) :
    jsGet (effectiveVariants P.defaultVariants vp) name = some val ∧
    resolvedGet (resolveStyles P st vp inl) slot p =
      resolvedGet (resolveStyles { P with variants := vs₁ ++ vs₂ } st vp inl) slot p ∧
    hasOwnKey (resolveStyles P st vp inl) slot =
      hasOwnKey (resolveStyles { P with variants := vs₁ ++ vs₂ } st vp inl) slot := by
  have heff : jsGet (effectiveVariants P.defaultVariants vp) name = some val := by
    rw [jsGet, getOwn_effectiveVariants_of_mem P.defaultVariants vp hnd name _ hsel]
  have hwnone : variantEntryWrite (effectiveVariants P.defaultVariants vp) st
      P.stateKeys slot p (name, vdef) = none := by
    rw [variantEntryWrite]
    simp only [heff]
    cases vdef with
    | none => rfl
    | some d =>
      have hunk' : jsGet d val = none := hunk
      simp [hunk']
  have hhnone : variantEntryHas (effectiveVariants P.defaultVariants vp) slot
      (name, vdef) = false := by
    rw [variantEntryHas]
    simp only [heff]
    cases vdef with
    | none => rfl
    | some d =>
      have hunk' : jsGet d val = none := hunk
      simp [hunk']
  refine ⟨heff, ?_, ?_⟩
  · rw [resolvedGet_resolveStyles, resolvedGet_resolveStyles]
    have hvw : variantsWrite (vs₁ ++ (name, vdef) :: vs₂)
        (effectiveVariants P.defaultVariants vp) st P.stateKeys slot p =
        variantsWrite (vs₁ ++ vs₂) (effectiveVariants P.defaultVariants vp) st
          P.stateKeys slot p := by
      unfold variantsWrite
      rw [lastWrite_append, lastWrite_cons, lastWrite_append, hwnone, oElse_none_right]
    simp only [hsplit]
    rw [hvw]
  · rw [hasOwnKey_resolveStyles, hasOwnKey_resolveStyles]
    have hvh : (vs₁ ++ (name, vdef) :: vs₂).any
        (variantEntryHas (effectiveVariants P.defaultVariants vp) slot) =
        (vs₁ ++ vs₂).any
          (variantEntryHas (effectiveVariants P.defaultVariants vp) slot) := by
      simp [hhnone]
    simp only [hsplit]
    rw [hvh]

/-- Witness for C7: the spec's §8 scenario — `intent: "nonexistent"` falls
through to the base styles only, the default `danger` is not substituted. -/
theorem c7_unknown_variant_value_silently_ignored_witness :
    jsGet (effectiveVariants [("intent", some "danger")] [("intent", some "nonexistent")])
        "intent" = some "nonexistent" ∧
    resolvedGet
      (resolveStyles
        { base := [("root", some [("fg", .prim "white")])]
          variants := [("intent", some [("danger", some [("root", some [("fg", .prim "red")])])])]
          compoundVariants := []
          defaultVariants := [("intent", some "danger")]
          stateKeys := ["active"]
          variantNameSet := ["intent"] } [] [("intent", some "nonexistent")] none) "root" "fg" =
      resolvedGet
        (resolveStyles
          { base := [("root", some [("fg", .prim "white")])]
            variants := [] ++ []
            compoundVariants := []
            defaultVariants := [("intent", some "danger")]
            stateKeys := ["active"]
            variantNameSet := ["intent"] } [] [("intent", some "nonexistent")] none) "root" "fg" := by
  refine ⟨?_, ?_⟩
  · exact (c7_unknown_variant_value_silently_ignored
      { base := [("root", some [("fg", .prim "white")])]
        variants := [("intent", some [("danger", some [("root", some [("fg", .prim "red")])])])]
        compoundVariants := []
        defaultVariants := [("intent", some "danger")]
        stateKeys := ["active"]
        variantNameSet := ["intent"] } []
      [] "intent" (some [("danger", some [("root", some [("fg", .prim "red")])])]) rfl
      [("intent", some "nonexistent")] (by decide) "nonexistent" (by decide) (by decide)
      [] none "root" "fg").1
  · exact (c7_unknown_variant_value_silently_ignored
      { base := [("root", some [("fg", .prim "white")])]
        variants := [("intent", some [("danger", some [("root", some [("fg", .prim "red")])])])]
        compoundVariants := []
        defaultVariants := [("intent", some "danger")]
        stateKeys := ["active"]
        variantNameSet := ["intent"] } []
      [] "intent" (some [("danger", some [("root", some [("fg", .prim "red")])])]) rfl
      [("intent", some "nonexistent")] (by decide) "nonexistent" (by decide) (by decide)
      [] none "root" "fg").2.1

-- ============================================================================
-- C10: a present-but-undefined variant selection suppresses the default
-- ============================================================================

/-- **C10.**  A variant selection key that is present with the explicit
value `undefined` makes that variant contribute nothing: the spread over
the defaults copies the `undefined`, so the effective value is
`undefined`, the default is not applied, and deleting the variant from the
config leaves resolution unchanged.  By contrast, omitting the key
entirely makes the effective value fall back to the default. -/
theorem c10_explicit_undefined_selection_suppresses_default
    (P : ProcessedStyledConfig) (vs₁ vs₂ : Variants) (name : String)
    (vdef : Option VariantDef) (hsplit : P.variants = vs₁ ++ (name, vdef) :: vs₂)
    (vp : VariantSelections) (hnd : (keysOf vp).Nodup)
    (hsel : getOwn vp name = some none)
    (st : ComponentState) (inl : Option SlotStyles) (slot p : String) :
    jsGet (effectiveVariants P.defaultVariants vp) name = none ∧
    resolvedGet (resolveStyles P st vp inl) slot p =
      resolvedGet (resolveStyles { P with variants := vs₁ ++ vs₂ } st vp inl) slot p ∧
    hasOwnKey (resolveStyles P st vp inl) slot =
      hasOwnKey (resolveStyles { P with variants := vs₁ ++ vs₂ } st vp inl) slot ∧
    (∀ vp' : VariantSelections, hasOwnKey vp' name = false →
      jsGet (effectiveVariants P.defaultVariants vp') name =
        jsGet P.defaultVariants name) := by
  have heff : jsGet (effectiveVariants P.defaultVariants vp) name = none := by
    rw [jsGet, getOwn_effectiveVariants_of_mem P.defaultVariants vp hnd name _ hsel]
  have hwnone : ∀ p', variantEntryWrite (effectiveVariants P.defaultVariants vp) st
      P.stateKeys slot p' (name, vdef) = none := by
    intro p'
    rw [variantEntryWrite]
    simp only [heff]
  have hhnone : variantEntryHas (effectiveVariants P.defaultVariants vp) slot
      (name, vdef) = false := by
    rw [variantEntryHas]
    simp only [heff]
  refine ⟨heff, ?_, ?_, ?_⟩
  · rw [resolvedGet_resolveStyles, resolvedGet_resolveStyles]
    have hvw : variantsWrite (vs₁ ++ (name, vdef) :: vs₂)
        (effectiveVariants P.defaultVariants vp) st P.stateKeys slot p =
        variantsWrite (vs₁ ++ vs₂) (effectiveVariants P.defaultVariants vp) st
          P.stateKeys slot p := by
      unfold variantsWrite
      rw [lastWrite_append, lastWrite_cons, lastWrite_append, hwnone, oElse_none_right]
    simp only [hsplit]
    rw [hvw]
  · rw [hasOwnKey_resolveStyles, hasOwnKey_resolveStyles]
    have hvh : (vs₁ ++ (name, vdef) :: vs₂).any
        (variantEntryHas (effectiveVariants P.defaultVariants vp) slot) =
        (vs₁ ++ vs₂).any
          (variantEntryHas (effectiveVariants P.defaultVariants vp) slot) := by
      simp [hhnone]
    simp only [hsplit]
    rw [hvh]
  · intro vp' hvp'
    exact jsGet_effectiveVariants_of_not_mem P.defaultVariants vp' name hvp'

/-- Witness for C10: `intent: undefined` leaves only the base styles (the
default `danger` is suppressed), while the empty selection would read the
default. -/
theorem c10_explicit_undefined_selection_suppresses_default_witness :
    jsGet (effectiveVariants [("intent", some "danger")] [("intent", none)]) "intent" =
      none ∧
    resolvedGet
      (resolveStyles
        { base := [("root", some [("fg", .prim "white")])]
          variants := [("intent", some [("danger", some [("root", some [("fg", .prim "red")])])])]
          compoundVariants := []
          defaultVariants := [("intent", some "danger")]
          stateKeys := []
          variantNameSet := ["intent"] } [] [("intent", none)] none) "root" "fg" =
      resolvedGet
        (resolveStyles
          { base := [("root", some [("fg", .prim "white")])]
            variants := [] ++ []
            compoundVariants := []
            defaultVariants := [("intent", some "danger")]
            stateKeys := []
            variantNameSet := ["intent"] } [] [("intent", none)] none) "root" "fg" ∧
    jsGet (effectiveVariants [("intent", some "danger")] []) "intent" = some "danger" := by
  refine ⟨?_, ?_, ?_⟩
  · exact (c10_explicit_undefined_selection_suppresses_default
      { base := [("root", some [("fg", .prim "white")])]
        variants := [("intent", some [("danger", some [("root", some [("fg", .prim "red")])])])]
        compoundVariants := []
        defaultVariants := [("intent", some "danger")]
        stateKeys := []
        variantNameSet := ["intent"] } []
      [] "intent" (some [("danger", some [("root", some [("fg", .prim "red")])])]) rfl
      [("intent", none)] (by decide) (by decide) [] none "root" "fg").1
  · exact (c10_explicit_undefined_selection_suppresses_default
      { base := [("root", some [("fg", .prim "white")])]
        variants := [("intent", some [("danger", some [("root", some [("fg", .prim "red")])])])]
        compoundVariants := []
        defaultVariants := [("intent", some "danger")]
        stateKeys := []
        variantNameSet := ["intent"] } []
      [] "intent" (some [("danger", some [("root", some [("fg", .prim "red")])])]) rfl
      [("intent", none)] (by decide) (by decide) [] none "root" "fg").2.1
  · exact (c10_explicit_undefined_selection_suppresses_default
      { base := [("root", some [("fg", .prim "white")])]
        variants := [("intent", some [("danger", some [("root", some [("fg", .prim "red")])])])]
        compoundVariants := []
        defaultVariants := [("intent", some "danger")]
        stateKeys := []
        variantNameSet := ["intent"] } []
      [] "intent" (some [("danger", some [("root", some [("fg", .prim "red")])])]) rfl
      [("intent", none)] (by decide) (by decide) [] none "root" "fg").2.2.2 [] (by decide)

-- ============================================================================
-- C3: undefined in an override layer — preservation and the one exception
-- ============================================================================

theorem foldl_write_obs_mem {σ γ : Type _} {β : Type _} (O : σ → Option β)
    (step : σ → γ → σ) (w : γ → Option β) :
    ∀ (l : List γ), (∀ r, ∀ x ∈ l, O (step r x) = oElse (w x) (O r)) →
      ∀ (r : σ), O (l.foldl step r) = oElse (lastWrite w l) (O r) := by
  intro l
  induction l with
  | nil => intro _ r; simp
  | cons x l ih =>
    intro h r
    simp only [List.foldl_cons, lastWrite_cons, oElse_assoc]
    rw [ih (fun r y hy => h r y (by simp [hy])) (step r x), h r x (by simp)]

@[simp] theorem lastWrite_const_none (l : List γ) :
    lastWrite (fun _ => (none : Option β)) l = none :=
  lastWrite_eq_none (fun _ _ => rfl)

/-- In an object with no duplicate keys, every entry carrying the looked-up
key carries the looked-up value. -/
theorem entry_val_of_getOwn {α : Type} {o : List (String × α)} {k : String} {v : α}
    (hnd : (keysOf o).Nodup) (hv : getOwn o k = some v) :
    ∀ kv ∈ o, kv.1 = k → kv.2 = v := by
  intro kv hkv hk
  induction o with
  | nil => simp at hkv
  | cons e rest ih =>
    simp only [keysOf, List.map_cons, List.nodup_cons] at hnd
    rcases List.mem_cons.1 hkv with h | h
    · subst h
      rw [getOwn_cons, if_pos hk] at hv
      exact Option.some_injective _ hv
    · have hmem : k ∈ List.map (fun x => x.1) rest := List.mem_map.2 ⟨kv, h, hk⟩
      have hek : ¬ e.1 = k := fun he => hnd.1 (by rw [he]; exact hmem)
      rw [getOwn_cons, if_neg hek] at hv
      exact ih hnd.2 hv h

/-- `mergeStyle` leaves a key alone when every override entry for it is
`undefined`. -/
theorem getOwn_mergeStyle_skip (b o : List (String × Option String)) (prop : String)
    (h : ∀ kv ∈ o, kv.1 = prop → kv.2 = none) :
    getOwn (mergeStyle b o) prop = getOwn b prop := by
  unfold mergeStyle
  rw [foldl_write_obs_mem (fun s => getOwn s prop) _ (fun _ => none) _ ?hstep]
  · simp
  case hstep =>
    rintro r ⟨k, v⟩ hkv
    rcases v with _ | s
    · simp
    · have hne : ¬ k = prop := fun he => by simpa using h (k, some s) hkv he
      simp [getOwn_setKey_ne _ _ hne]

/-- `mergeSlotStyleWithSelectors` leaves a property alone when every
override entry for it is `undefined`. -/
theorem getOwn_mergeSlotStyleWithSelectors_skip (b o : Style) (prop : String)
    (hndb : (keysOf b).Nodup)
    (h : ∀ kv ∈ o, kv.1 = prop → kv.2 = .undef) :
    getOwn (mergeSlotStyleWithSelectors b o) prop = getOwn b prop := by
  unfold mergeSlotStyleWithSelectors
  rw [foldl_write_obs_mem (fun s => getOwn s prop) _ (fun _ => none) _ ?hstep]
  · rw [lastWrite_const_none, oElse_none_left]
    show getOwn (spreadObj [] b) prop = _
    rw [getOwn_spreadObj, lastEntry_eq_getOwn_of_nodup hndb]
    simp
  case hstep =>
    rintro r ⟨k, v⟩ hkv
    rcases v with _ | s | f
    · simp
    · have hne : ¬ k = prop := fun he => by simpa using h (k, .prim s) hkv he
      simp [isPlainObject, getOwn_setKey_ne _ _ hne]
    · have hne : ¬ k = prop := fun he => by simpa using h (k, .obj f) hkv he
      by_cases hsk : isSelectorKey k
      · rcases hgr : getOwn r k with _ | w
        · simp [isPlainObject, hsk, hgr, getOwn_setKey_ne _ _ hne]
        · rcases w with _ | s' | bf <;>
            simp [isPlainObject, hsk, hgr, getOwn_setKey_ne _ _ hne]
      · simp [isPlainObject, hsk, getOwn_setKey_ne _ _ hne]

/-- `mergeSlotStyles` leaves a slot alone when every override entry for it
is `undefined`. -/
theorem getOwn_mergeSlotStyles_skip (b o : SlotStyles) (slot : String)
    (h : ∀ kv ∈ o, kv.1 = slot → kv.2 = none) :
    getOwn (mergeSlotStyles b o) slot = getOwn b slot := by
  unfold mergeSlotStyles
  rw [foldl_write_obs_mem (fun s => getOwn s slot) _ (fun _ => none) _ ?hstep]
  · simp
  case hstep =>
    rintro r ⟨k, v⟩ hkv
    rcases v with _ | os
    · simp
    · have hne : ¬ k = slot := fun he => by simpa using h (k, some os) hkv he
      rcases hbg : jsGet b k with _ | bs <;>
        simp [hbg, getOwn_setKey_ne _ _ hne]

/-- `mergeVariantValues` leaves a variant value alone when every override
entry for it is `undefined`. -/
theorem getOwn_mergeVariantValues_skip (bv ov : VariantDef) (value : String)
    (h : ∀ kv ∈ ov, kv.1 = value → kv.2 = none) :
    getOwn (mergeVariantValues bv ov) value = getOwn bv value := by
  unfold mergeVariantValues
  rw [foldl_write_obs_mem (fun s => getOwn s value) _ (fun _ => none) _ ?hstep]
  · simp
  case hstep =>
    rintro r ⟨k, v⟩ hkv
    rcases v with _ | os
    · simp
    · have hne : ¬ k = value := fun he => by simpa using h (k, some os) hkv he
      rcases hbg : jsGet r k with _ | bs <;>
        simp [hbg, getOwn_setKey_ne _ _ hne]

/-- **C3 counterexample.**  The claim fails at the `defaultVariants`
location: the base config defines `intent = "primary"`, the override sets
`intent` to the explicit `undefined`, and the merged config holds
`undefined` at `intent` — the base's defined value is *not* retained. -/
theorem c3_counterexample :
    getOwn (({ defaultVariants := some [("intent", some "primary")] } :
        StyledConfig).defaultVariants.getD []) "intent" = some (some "primary") ∧
    getOwn ((mergeStyledConfig
        { defaultVariants := some [("intent", some "primary")] }
        { defaultVariants := some [("intent", none)] }).defaultVariants.getD [])
      "intent" = some none := by
  constructor
  · decide
  · decide

/-- **C3 amended.**  An explicitly-`undefined` override value never erases
a defined base value at the style locations — a plain or selector-key
property of a slot's styles, a property inside a state-selector partial
style, a whole slot entry, and a variant-value entry — but a
`defaultVariants` entry that is explicitly `undefined` in the override
*does* shadow the base's default, because the merge spreads the two
default maps and a spread copies `undefined` values. -/
theorem c3_amended_undefined_override_semantics :
    (∀ (A B : StyledConfig) (slot : String),
      (keysOf (B.base.getD [])).Nodup →
      getOwn (B.base.getD []) slot = some none →
      getOwn ((mergeStyledConfig A B).base.getD []) slot =
        getOwn (A.base.getD []) slot) ∧
    (∀ (b o : Style) (prop : String),
      (keysOf b).Nodup → (keysOf o).Nodup →
      getOwn o prop = some .undef →
      getOwn (mergeSlotStyleWithSelectors b o) prop = getOwn b prop) ∧
    (∀ (b o : List (String × Option String)) (prop : String),
      (keysOf o).Nodup →
      getOwn o prop = some none →
      getOwn (mergeStyle b o) prop = getOwn b prop) ∧
    (∀ (bv ov : VariantDef) (value : String),
      (keysOf ov).Nodup →
      getOwn ov value = some none →
      getOwn (mergeVariantValues bv ov) value = getOwn bv value) ∧
    (∀ (A B : StyledConfig) (name : String),
      (keysOf (B.defaultVariants.getD [])).Nodup →
      getOwn (B.defaultVariants.getD []) name = some none →
      jsGet ((mergeStyledConfig A B).defaultVariants.getD []) name = none) := by
  refine ⟨?_, ?_, ?_, ?_, ?_⟩
  · intro A B slot hnd hv
    show getOwn ((some (mergeSlotStyles (A.base.getD []) (B.base.getD []))).getD [])
      slot = _
    rw [Option.getD_some]
    exact getOwn_mergeSlotStyles_skip _ _ slot (entry_val_of_getOwn hnd hv)
  · intro b o prop hndb hndo hv
    exact getOwn_mergeSlotStyleWithSelectors_skip b o prop hndb
      (entry_val_of_getOwn hndo hv)
  · intro b o prop hndo hv
    exact getOwn_mergeStyle_skip b o prop (entry_val_of_getOwn hndo hv)
  · intro bv ov value hndo hv
    exact getOwn_mergeVariantValues_skip bv ov value (entry_val_of_getOwn hndo hv)
  · intro A B name hnd hv
    show jsGet ((some (spreadObj (A.defaultVariants.getD [])
      (B.defaultVariants.getD []))).getD []) name = none
    rw [Option.getD_some, jsGet, getOwn_spreadObj,
      lastEntry_eq_getOwn_of_nodup hnd, hv]
    rfl

/-- Witness for the amended C3 at concrete data: an `undefined` slot
property and selector-inner property are preserved, while the `undefined`
defaultVariants entry erases the base's default. -/
theorem c3_amended_undefined_override_semantics_witness :
    getOwn (mergeSlotStyleWithSelectors [("fg", .prim "white")] [("fg", .undef)]) "fg" =
      getOwn [(("fg" : String), JVal.prim "white")] "fg" ∧
    getOwn (mergeStyle [("fg", some "white")] [("fg", none), ("bg", some "blue")]) "fg" =
      getOwn [(("fg" : String), some "white")] "fg" ∧
    jsGet ((mergeStyledConfig
        { defaultVariants := some [("intent", some "primary")] }
        { defaultVariants := some [("intent", none)] }).defaultVariants.getD [])
      "intent" = none := by
  refine ⟨?_, ?_, ?_⟩
  · exact c3_amended_undefined_override_semantics.2.1 [("fg", .prim "white")]
      [("fg", .undef)] "fg" (by decide) (by decide) (by decide)
  · exact c3_amended_undefined_override_semantics.2.2.1 [("fg", some "white")]
      [("fg", none), ("bg", some "blue")] "fg" (by decide) (by decide)
  · exact c3_amended_undefined_override_semantics.2.2.2.2
      { defaultVariants := some [("intent", some "primary")] }
      { defaultVariants := some [("intent", none)] } "intent" (by decide) (by decide)

-- ============================================================================
-- C4: composition merges the author-facing configs, then normalizes
-- ============================================================================

theorem getOwn_append (a b : List (String × α)) (k : String) :
    getOwn (a ++ b) k = oElse (getOwn a k) (getOwn b k) := by
  induction a with
  | nil => simp
  | cons e rest ih =>
    rw [List.cons_append, getOwn_cons, getOwn_cons]
    by_cases h : e.1 = k <;> simp [h, ih]

theorem setKey_eq_append_of_getOwn_none {o : List (String × α)} {k : String}
    (v : α) (h : getOwn o k = none) : setKey o k v = o ++ [(k, v)] := by
  induction o with
  | nil => rfl
  | cons e rest ih =>
    rw [getOwn_cons] at h
    by_cases he : e.1 = k
    · simp [he] at h
    · rw [if_neg he] at h
      show (if e.1 = k then _ else e :: setKey rest k v) = _
      rw [if_neg he, List.cons_append, ih h]

/-- Folding a variants table with pairwise-fresh names into a base table
simply appends it (the source's insertion loop adds each new name at the
end). -/
theorem mergeVariants_disjoint (o : Variants) :
    ∀ (b : Variants), (keysOf o).Nodup → (∀ k ∈ keysOf o, getOwn b k = none) →
      mergeVariants (some b) (some o) = b ++ o := by
  induction o with
  | nil => intro b _ _; simp [mergeVariants]
  | cons e o' ih =>
    intro b hnd hdis
    simp only [keysOf, List.map_cons, List.nodup_cons] at hnd
    have hb : getOwn b e.1 = none := hdis e.1 (by simp [keysOf])
    have hjs : jsGet b e.1 = none := by rw [jsGet, hb]
    show List.foldl _ b (e :: o') = _
    rw [List.foldl_cons]
    show List.foldl _ (match jsGet b e.1 with
      | none => setKey b e.1 e.2
      | some baseVariant =>
        match e.2 with
        | none => setKey b e.1 (some baseVariant)
        | some overrideVariant =>
          setKey b e.1 (some (mergeVariantValues baseVariant overrideVariant))) o' = _
    rw [hjs]
    show List.foldl _ (setKey b e.1 e.2) o' = _
    rw [setKey_eq_append_of_getOwn_none e.2 hb]
    have hdis' : ∀ k ∈ keysOf o', getOwn (b ++ [(e.1, e.2)]) k = none := by
      intro k hk
      rw [getOwn_append,
        hdis k (by
          simp only [keysOf, List.map_cons, List.mem_cons]
          exact Or.inr hk),
        oElse_none_left, getOwn_cons]
      have : ¬ e.1 = k := fun he => hnd.1 (he ▸ (by simpa [keysOf] using hk))
      rw [if_neg this]
      rfl
    have := ih (b ++ [(e.1, e.2)]) hnd.2 hdis'
    rw [show mergeVariants (some (b ++ [(e.1, e.2)])) (some o') =
        List.foldl _ (b ++ [(e.1, e.2)]) o' from rfl] at this
    rw [this, List.append_assoc]
    rfl

/-- Re-normalizing a processed config back to author-facing shape and
merging is the same as merging the original author configs: the
defaulted-in empty forms are absorbed by the merge. -/
theorem processStyledConfig_merge_reprocess (A B : StyledConfig)
    (sk : List String) (hndB : (keysOf (B.variants.getD [])).Nodup) :
    processStyledConfig
      (mergeStyledConfig
        { base := some ((processStyledConfig A sk).base)
          variants := some ((processStyledConfig A sk).variants)
          compoundVariants := some ((processStyledConfig A sk).compoundVariants)
          defaultVariants := some ((processStyledConfig A sk).defaultVariants) } B) sk
    = processStyledConfig (mergeStyledConfig A B) sk := by
  have hvar : mergeVariants (some (A.variants.getD [])) B.variants =
      mergeVariants A.variants B.variants := by
    cases hA : A.variants with
    | some v => rfl
    | none =>
      cases hB : B.variants with
      | none => rfl
      | some o =>
        rw [show mergeVariants none (some o) = o from rfl]
        rw [Option.getD_none]
        rw [mergeVariants_disjoint o [] (by simpa [hB] using hndB) (by intro k _; rfl)]
        rfl
  unfold processStyledConfig mergeStyledConfig
  simp only [Option.getD_some, hvar]

/-- **C4.**  Styling an already-styled definition merges the wrapped
definition's author-facing configuration (recovered from the stored
config) as the base layer with the new config as the override layer and
then normalizes: the processed config stored on
`createStyled (createStyled X A) B` is exactly
`processStyledConfig (mergeStyledConfig A B) stateKeys`. -/
theorem c4_composition_processes_merged_author_config
    (X : Component) (m : ComponentMeta) (hm : X.otuiComponentMeta = some m)
    (hX : isStyledComponentDefinition X = false)
    (A B : StyledConfig) (hndB : (keysOf (B.variants.getD [])).Nodup)
    (d₁ d₂ : StyledComponentDefinition)
    (h₁ : createStyled X A = .ok d₁)
    (h₂ : createStyled d₁.asComponent B = .ok d₂) :
    d₂.storedStyledConfig = processStyledConfig (mergeStyledConfig A B) m.stateKeys ∧
    d₂.processed = processStyledConfig (mergeStyledConfig A B) m.stateKeys := by
  unfold createStyled at h₁
  rw [hm] at h₁
  simp only [hX, Bool.false_eq_true, if_false, Except.ok.injEq] at h₁
  subst h₁
  unfold createStyled at h₂
  simp only [StyledComponentDefinition.asComponent, isStyledComponentDefinition,
    Option.isSome_some, Bool.and_true, if_true, Except.ok.injEq] at h₂
  subst h₂
  have key := processStyledConfig_merge_reprocess A B m.stateKeys hndB
  exact ⟨key, key⟩

/-- Witness for C4 at a concrete raw component and two one-slot configs. -/
theorem c4_composition_processes_merged_author_config_witness :
    (keysOf (({ base := some [("root", some [("bg", .prim "black")])] } :
        StyledConfig).variants.getD [])).Nodup ∧
    ({ component :=
        { otuiComponentMeta := some ⟨["root"], ["checked"]⟩
          styledComponentMarker := true
          storedStyledConfig := some
            { base := [("root", some [("fg", .prim "white")])]
              variants := []
              compoundVariants := []
              defaultVariants := []
              stateKeys := ["checked"]
              variantNameSet := [] } }
       processed :=
        { base := [("root", some [("fg", .prim "white"), ("bg", .prim "black")])]
          variants := []
          compoundVariants := []
          defaultVariants := []
          stateKeys := ["checked"]
          variantNameSet := [] }
       config :=
        { base := some [("root", some [("fg", .prim "white"), ("bg", .prim "black")])]
          variants := some []
          compoundVariants := some []
          defaultVariants := some [] }
       styledComponentMarker := true
       storedStyledConfig :=
        { base := [("root", some [("fg", .prim "white"), ("bg", .prim "black")])]
          variants := []
          compoundVariants := []
          defaultVariants := []
          stateKeys := ["checked"]
          variantNameSet := [] }
       otuiComponentMeta := ⟨["root"], ["checked"]⟩ } :
        StyledComponentDefinition).storedStyledConfig =
      processStyledConfig
        (mergeStyledConfig { base := some [("root", some [("fg", .prim "white")])] }
          { base := some [("root", some [("bg", .prim "black")])] })
        (⟨["root"], ["checked"]⟩ : ComponentMeta).stateKeys := by
  refine ⟨by decide, ?_⟩
  exact (c4_composition_processes_merged_author_config
    ⟨some ⟨["root"], ["checked"]⟩, false, none⟩ ⟨["root"], ["checked"]⟩ rfl rfl
    { base := some [("root", some [("fg", .prim "white")])] }
    { base := some [("root", some [("bg", .prim "black")])] } (by decide)
    { component := ⟨some ⟨["root"], ["checked"]⟩, false, none⟩
      processed :=
        { base := [("root", some [("fg", .prim "white")])]
          variants := []
          compoundVariants := []
          defaultVariants := []
          stateKeys := ["checked"]
          variantNameSet := [] }
      config := { base := some [("root", some [("fg", .prim "white")])] }
      styledComponentMarker := true
      storedStyledConfig :=
        { base := [("root", some [("fg", .prim "white")])]
          variants := []
          compoundVariants := []
          defaultVariants := []
          stateKeys := ["checked"]
          variantNameSet := [] }
      otuiComponentMeta := ⟨["root"], ["checked"]⟩ }
    { component :=
        { otuiComponentMeta := some ⟨["root"], ["checked"]⟩
          styledComponentMarker := true
          storedStyledConfig := some
            { base := [("root", some [("fg", .prim "white")])]
              variants := []
              compoundVariants := []
              defaultVariants := []
              stateKeys := ["checked"]
              variantNameSet := [] } }
      processed :=
        { base := [("root", some [("fg", .prim "white"), ("bg", .prim "black")])]
          variants := []
          compoundVariants := []
          defaultVariants := []
          stateKeys := ["checked"]
          variantNameSet := [] }
      config :=
        { base := some [("root", some [("fg", .prim "white"), ("bg", .prim "black")])]
          variants := some []
          compoundVariants := some []
          defaultVariants := some [] }
      styledComponentMarker := true
      storedStyledConfig :=
        { base := [("root", some [("fg", .prim "white"), ("bg", .prim "black")])]
          variants := []
          compoundVariants := []
          defaultVariants := []
          stateKeys := ["checked"]
          variantNameSet := [] }
      otuiComponentMeta := ⟨["root"], ["checked"]⟩ }
    rfl rfl).1

-- ============================================================================
-- C2: towards merge associativity — views, equivalences, well-formedness
-- ============================================================================

/-- The defined-value view of a style object at a key: a present-but-
`undefined` entry reads as absent. -/
def dGet (s : Style) (k : String) : Option JVal :=
  match getOwn s k with
  | some .undef => none
  | some v => some v
  | none => none

/-- Observational equivalence of two optional selector-object values:
both absent, or both plain objects with the same defined properties. -/
def selValEquiv : Option JVal → Option JVal → Prop
  | none, none => True
  | some (.obj f), some (.obj g) => ∀ p, jsGet f p = jsGet g p
  | _, _ => False

/-- Observational equivalence of slot styles: equal defined values at
every non-selector key, equivalent selector objects at selector keys. -/
def StyleEquiv (s₁ s₂ : Style) : Prop :=
  ∀ k, (isSelectorKey k = true → selValEquiv (dGet s₁ k) (dGet s₂ k)) ∧
    (isSelectorKey k = false → dGet s₁ k = dGet s₂ k)

def slotValEquiv : Option Style → Option Style → Prop
  | none, none => True
  | some s₁, some s₂ => StyleEquiv s₁ s₂
  | _, _ => False

def SlotStylesEquiv (L₁ L₂ : SlotStyles) : Prop :=
  ∀ slot, slotValEquiv (jsGet L₁ slot) (jsGet L₂ slot)

def varDefValEquiv : Option SlotStyles → Option SlotStyles → Prop
  | none, none => True
  | some L₁, some L₂ => SlotStylesEquiv L₁ L₂
  | _, _ => False

def VariantDefEquiv (d₁ d₂ : VariantDef) : Prop :=
  ∀ value, varDefValEquiv (jsGet d₁ value) (jsGet d₂ value)

def varValEquiv : Option VariantDef → Option VariantDef → Prop
  | none, none => True
  | some d₁, some d₂ => VariantDefEquiv d₁ d₂
  | _, _ => False

def VariantsEquiv (v₁ v₂ : Variants) : Prop :=
  keysOf v₁ = keysOf v₂ ∧ ∀ name, varValEquiv (jsGet v₁ name) (jsGet v₂ name)

/-- The selector-object fields of a style value (`[]` otherwise). -/
def objFields : JVal → List (String × Option String)
  | .obj f => f
  | _ => []

/-- Well-formed slot style: unique keys, selector-marked keys hold
`undefined` or plain objects, and nested objects have unique keys. -/
def WFStyle (s : Style) : Prop :=
  (keysOf s).Nodup ∧
  ∀ kv ∈ s, (isSelectorKey kv.1 = true → kv.2 = .undef ∨ isPlainObject kv.2 = true) ∧
    (keysOf (objFields kv.2)).Nodup

def WFSlotVal : Option Style → Prop
  | some s => WFStyle s
  | none => True

def WFSlotStyles (L : SlotStyles) : Prop :=
  (keysOf L).Nodup ∧ ∀ kv ∈ L, WFSlotVal kv.2

def WFVarDefVal : Option SlotStyles → Prop
  | some L => WFSlotStyles L
  | none => True

def WFVariantDef (d : VariantDef) : Prop :=
  (keysOf d).Nodup ∧ ∀ kv ∈ d, WFVarDefVal kv.2

def WFVarVal : Option VariantDef → Prop
  | some d => WFVariantDef d
  | none => True

def WFVariants (v : Variants) : Prop :=
  (keysOf v).Nodup ∧ ∀ kv ∈ v, WFVarVal kv.2

def WFConfig (cfg : StyledConfig) : Prop :=
  WFSlotStyles (cfg.base.getD []) ∧ WFVariants (cfg.variants.getD []) ∧
    (∀ c ∈ cfg.compoundVariants.getD [], WFSlotStyles c.styles) ∧
    (keysOf (cfg.defaultVariants.getD [])).Nodup

instance (s : Style) : Decidable (WFStyle s) := by
  unfold WFStyle
  infer_instance

instance (v : Option Style) : Decidable (WFSlotVal v) := by
  cases v <;> (unfold WFSlotVal; infer_instance)

instance (L : SlotStyles) : Decidable (WFSlotStyles L) := by
  unfold WFSlotStyles
  infer_instance

instance (v : Option SlotStyles) : Decidable (WFVarDefVal v) := by
  cases v <;> (unfold WFVarDefVal; infer_instance)

instance (d : VariantDef) : Decidable (WFVariantDef d) := by
  unfold WFVariantDef
  infer_instance

instance (v : Option VariantDef) : Decidable (WFVarVal v) := by
  cases v <;> (unfold WFVarVal; infer_instance)

instance (v : Variants) : Decidable (WFVariants v) := by
  unfold WFVariants
  infer_instance

instance (cfg : StyledConfig) : Decidable (WFConfig cfg) := by
  unfold WFConfig
  infer_instance

-- ============================================================================
-- Generic per-key fold characterization
-- ============================================================================

/-- A fold whose steps only ever write their own entry's key, observed at a
fixed key `k`: with unique keys, only the (at most one) entry for `k`
transforms the value there — through `F` — and every other entry leaves it
alone. -/
theorem foldl_single_key {α : Type _} (step : List (String × β) → (String × α) → List (String × β))
    (k : String) (F : α → Option β → Option β)
    (hne : ∀ r kv, kv.1 ≠ k → getOwn (step r kv) k = getOwn r k)
    (heq : ∀ r (kv : String × α), kv.1 = k → getOwn (step r kv) k = F kv.2 (getOwn r k)) :
    ∀ (o : List (String × α)) (r : List (String × β)), (keysOf o).Nodup →
      getOwn (o.foldl step r) k =
        match getOwn o k with
        | some v => F v (getOwn r k)
        | none => getOwn r k := by
  intro o
  induction o with
  | nil => intro r _; rfl
  | cons e o' ih =>
    intro r hnd
    simp only [keysOf, List.map_cons, List.nodup_cons] at hnd
    rw [List.foldl_cons, getOwn_cons]
    by_cases hk : e.1 = k
    · rw [if_pos hk]
      have hnone : getOwn o' k = none := by
        refine getOwn_eq_none_of_not_mem ?_
        intro hmem
        exact hnd.1 (hk ▸ hmem)
      have hrest : getOwn (o'.foldl step (step r e)) k = getOwn (step r e) k := by
        rw [ih (step r e) hnd.2, hnone]
      rw [hrest, heq r e hk]
    · rw [if_neg hk]
      rw [ih (step r e) hnd.2, hne r e hk]

/-- `lastWrite` of a keyed write function over a unique-keyed object is a
lookup. -/
theorem lastWrite_key_of_nodup {α : Type _} (f : α → Option β)
    (o : List (String × α)) (p : String) (hnd : (keysOf o).Nodup) :
    lastWrite (fun kv => if kv.1 = p then f kv.2 else none) o =
      match getOwn o p with
      | some v => f v
      | none => none := by
  induction o with
  | nil => rfl
  | cons e o' ih =>
    simp only [keysOf, List.map_cons, List.nodup_cons] at hnd
    rw [lastWrite_cons, getOwn_cons]
    by_cases hk : e.1 = p
    · rw [if_pos hk, if_pos hk]
      have hnone : getOwn o' p = none := by
        refine getOwn_eq_none_of_not_mem ?_
        intro hmem
        exact hnd.1 (hk ▸ hmem)
      rw [ih hnd.2, hnone]
      show oElse none (f e.2) = f e.2
      exact oElse_none_left _
    · rw [if_neg hk, if_neg hk, ih hnd.2, oElse_none_right]

/-- `List.any` of a keyed predicate over a unique-keyed object is a
lookup. -/
theorem any_key_of_nodup {α : Type _} (g : α → Bool) (o : List (String × α))
    (p : String) (hnd : (keysOf o).Nodup) :
    (o.any fun kv => if kv.1 = p then g kv.2 else false) =
      match getOwn o p with
      | some v => g v
      | none => false := by
  induction o with
  | nil => rfl
  | cons e o' ih =>
    simp only [keysOf, List.map_cons, List.nodup_cons] at hnd
    rw [List.any_cons, getOwn_cons]
    by_cases hk : e.1 = p
    · rw [if_pos hk, if_pos hk]
      have hnone : getOwn o' p = none := by
        refine getOwn_eq_none_of_not_mem ?_
        intro hmem
        exact hnd.1 (hk ▸ hmem)
      rw [ih hnd.2, hnone]
      show (g e.2 || false) = g e.2
      exact Bool.or_false _
    · rw [if_neg hk, if_neg hk, ih hnd.2, Bool.false_or]

theorem getOwn_mem {o : List (String × α)} {k : String} {v : α}
    (h : getOwn o k = some v) : (k, v) ∈ o := by
  induction o with
  | nil => simp [getOwn] at h
  | cons e rest ih =>
    rw [getOwn_cons] at h
    by_cases he : e.1 = k
    · rw [if_pos he] at h
      have : e = (k, v) := by
        cases e
        simp only at he
        cases h
        simp [he]
      simp [this]
    · rw [if_neg he] at h
      exact List.mem_cons_of_mem _ (ih h)

/-- The selector key of a state key is itself selector-marked. -/
theorem isSelectorKey_selectorKey (k : String) :
    isSelectorKey (selectorKey k) = true := by
  cases k with
  | mk l => rfl

-- ============================================================================
-- Preservation of well-formedness through the merge operations
-- ============================================================================

theorem keysOf_setKey (o : List (String × α)) (k : String) (v : α) :
    keysOf (setKey o k v) = if k ∈ keysOf o then keysOf o else keysOf o ++ [k] := by
  induction o with
  | nil => simp [setKey, keysOf]
  | cons e rest ih =>
    by_cases he : e.1 = k
    · rw [show setKey (e :: rest) k v = (k, v) :: rest from by
        show (if e.1 = k then _ else _) = _
        rw [if_pos he]]
      simp [keysOf, he]
    · rw [show setKey (e :: rest) k v = e :: setKey rest k v from by
        show (if e.1 = k then _ else _) = _
        rw [if_neg he]]
      by_cases hm : k ∈ keysOf rest
      · simp only [keysOf, List.map_cons, List.mem_cons] at *
        rw [if_pos (Or.inr hm)]
        rw [if_pos hm] at ih
        rw [ih]
      · simp only [keysOf, List.map_cons, List.mem_cons] at *
        rw [if_neg (by
          rintro (h | h)
          · exact he h.symm
          · exact hm h)]
        rw [if_neg hm] at ih
        rw [ih]
        rfl

theorem nodup_keysOf_setKey {o : List (String × α)} {k : String} (v : α)
    (h : (keysOf o).Nodup) : (keysOf (setKey o k v)).Nodup := by
  rw [keysOf_setKey]
  by_cases hm : k ∈ keysOf o
  · rw [if_pos hm]; exact h
  · rw [if_neg hm]
    simp [List.nodup_append, h, hm]

theorem mem_setKey {o : List (String × α)} {k : String} {v : α} :
    ∀ kv ∈ setKey o k v, kv = (k, v) ∨ kv ∈ o := by
  intro kv hkv
  induction o with
  | nil => simp [setKey] at hkv; simp [hkv]
  | cons e rest ih =>
    by_cases he : e.1 = k
    · rw [show setKey (e :: rest) k v = (k, v) :: rest from by
        show (if e.1 = k then _ else _) = _
        rw [if_pos he]] at hkv
      rcases List.mem_cons.1 hkv with h | h
      · exact Or.inl h
      · exact Or.inr (List.mem_cons_of_mem _ h)
    · rw [show setKey (e :: rest) k v = e :: setKey rest k v from by
        show (if e.1 = k then _ else _) = _
        rw [if_neg he]] at hkv
      rcases List.mem_cons.1 hkv with h | h
      · exact Or.inr (h ▸ List.mem_cons_self e rest)
      · rcases ih h with h' | h'
        · exact Or.inl h'
        · exact Or.inr (List.mem_cons_of_mem _ h')

theorem foldl_preserve {σ γ : Type _} {P : σ → Prop} (step : σ → γ → σ)
    (l : List γ) (h : ∀ r x, P r → x ∈ l → P (step r x)) :
    ∀ r, P r → P (l.foldl step r) := by
  induction l with
  | nil => intro r hr; exact hr
  | cons x l ih =>
    intro r hr
    exact ih (fun r y hry hy => h r y hry (by simp [hy]))
      (step r x) (h r x hr (by simp))

theorem mem_spreadObj {t s : List (String × α)} :
    ∀ kv ∈ spreadObj t s, kv ∈ t ∨ kv ∈ s := by
  have := foldl_preserve (P := fun r => ∀ kv ∈ r, kv ∈ t ∨ kv ∈ s)
    (fun r kv => setKey r kv.1 kv.2) s ?_ t ?_
  · exact this
  · intro r x hr hx kv hkv
    rcases mem_setKey kv hkv with h | h
    · right
      have : x = (x.1, x.2) := rfl
      rw [h]
      exact this ▸ hx
    · exact hr kv h
  · intro kv hkv
    exact Or.inl hkv

theorem nodup_keysOf_spreadObj {t : List (String × α)} (s : List (String × α))
    (h : (keysOf t).Nodup) : (keysOf (spreadObj t s)).Nodup :=
  foldl_preserve (P := fun r => (keysOf r).Nodup) _ s
    (fun _ kv hr _ => nodup_keysOf_setKey kv.2 hr) t h

theorem nodup_keysOf_mergeStyle {b : List (String × Option String)}
    (o : List (String × Option String)) (h : (keysOf b).Nodup) :
    (keysOf (mergeStyle b o)).Nodup := by
  refine foldl_preserve (P := fun r => (keysOf r).Nodup) _ o ?_ b h
  intro r kv hr _
  cases kv.2 with
  | none => exact hr
  | some v => exact nodup_keysOf_setKey _ hr

theorem mem_mergeStyle {b o : List (String × Option String)} :
    ∀ kv ∈ mergeStyle b o, kv ∈ b ∨ kv ∈ o ∨ ∃ k v, kv = (k, some v) ∧ (k, some v) ∈ o := by
  refine foldl_preserve
    (P := fun r => ∀ kv ∈ r, kv ∈ b ∨ kv ∈ o ∨ ∃ k v, kv = (k, some v) ∧ (k, some v) ∈ o)
    _ o ?_ b (fun kv hkv => Or.inl hkv)
  intro r x hr hx kv hkv
  cases hx2 : x.2 with
  | none =>
    rw [hx2] at hkv
    exact hr kv hkv
  | some v =>
    rw [hx2] at hkv
    rcases mem_setKey kv hkv with h | h
    · refine Or.inr (Or.inr ⟨x.1, v, h, ?_⟩)
      have : x = (x.1, some v) := by
        cases x
        simpa using hx2
      exact this ▸ hx
    · exact hr kv h

theorem WFStyle_setKey {r : Style} {k : String} {w : JVal} (hr : WFStyle r)
    (h1 : isSelectorKey k = true → w = .undef ∨ isPlainObject w = true)
    (h2 : (keysOf (objFields w)).Nodup) : WFStyle (setKey r k w) := by
  refine ⟨nodup_keysOf_setKey _ hr.1, ?_⟩
  intro kv hkv
  rcases mem_setKey kv hkv with h | h
  · rw [h]
    exact ⟨h1, h2⟩
  · exact hr.2 kv h

theorem WFStyle_spread_base {b : Style} (hb : WFStyle b) :
    WFStyle (b.foldl (fun result kv => setKey result kv.1 kv.2) []) := by
  constructor
  · exact nodup_keysOf_spreadObj (t := []) b (by simp [keysOf])
  · intro kv hkv
    rcases mem_spreadObj (t := []) (s := b) kv hkv with h | h
    · simp at h
    · exact hb.2 kv h

theorem WFStyle_mergeSlotStyleWithSelectors {b o : Style} (hb : WFStyle b)
    (ho : WFStyle o) : WFStyle (mergeSlotStyleWithSelectors b o) := by
  unfold mergeSlotStyleWithSelectors
  refine foldl_preserve (P := WFStyle) _ o ?_ _ (WFStyle_spread_base hb)
  intro r kv hr hkv
  have hcond := ho.2 kv hkv
  rcases kv with ⟨k, v⟩
  rcases v with _ | s | f
  · exact hr
  · show WFStyle (if isSelectorKey k && isPlainObject (.prim s) then _ else setKey r k (.prim s))
    rw [if_neg (by simp [isPlainObject])]
    refine WFStyle_setKey hr ?_ (by simp [objFields, keysOf])
    intro hsel
    rcases hcond.1 hsel with h | h
    · exact absurd h (by simp)
    · exact absurd h (by simp [isPlainObject])
  · show WFStyle (if isSelectorKey k && isPlainObject (.obj f) then
      match JVal.obj f, getOwn r k with
      | .obj ovf, some (.obj baseSelector) => setKey r k (.obj (mergeStyle baseSelector ovf))
      | .obj ovf, _ => setKey r k (.obj ovf)
      | v, _ => setKey r k v
      else setKey r k (.obj f))
    by_cases hsk : isSelectorKey k
    · rw [if_pos (by simp [isPlainObject, hsk])]
      rcases hg : getOwn r k with _ | w
      · exact WFStyle_setKey hr (fun _ => Or.inr rfl) (by
          simpa [objFields] using hcond.2)
      · rcases w with _ | s' | bf
        · exact WFStyle_setKey hr (fun _ => Or.inr rfl) (by
            simpa [objFields] using hcond.2)
        · exact WFStyle_setKey hr (fun _ => Or.inr rfl) (by
            simpa [objFields] using hcond.2)
        · refine WFStyle_setKey hr (fun _ => Or.inr rfl) ?_
          have hbf : (keysOf bf).Nodup := by
            have := hr.2 (k, .obj bf) (getOwn_mem hg)
            simpa [objFields] using this.2
          simpa [objFields] using nodup_keysOf_mergeStyle _ hbf
    · rw [if_neg (by simp [hsk])]
      refine WFStyle_setKey hr (fun h => absurd h hsk) ?_
      simpa [objFields] using hcond.2

theorem WFSlotStyles_setKey {r : SlotStyles} {k : String} {w : Option Style}
    (hr : WFSlotStyles r) (hw : WFSlotVal w) : WFSlotStyles (setKey r k w) := by
  refine ⟨nodup_keysOf_setKey _ hr.1, ?_⟩
  intro kv hkv
  rcases mem_setKey kv hkv with h | h
  · rw [h]; exact hw
  · exact hr.2 kv h

theorem WFSlotVal_getOwn {L : SlotStyles} {k : String} {v : Option Style}
    (hL : WFSlotStyles L) (h : getOwn L k = some v) : WFSlotVal v :=
  hL.2 (k, v) (getOwn_mem h)

theorem WFStyle_jsGet {L : SlotStyles} {k : String} {s : Style}
    (hL : WFSlotStyles L) (h : jsGet L k = some s) : WFStyle s := by
  unfold jsGet at h
  rcases hg : getOwn L k with _ | v
  · rw [hg] at h; cases h
  · rw [hg] at h
    have := WFSlotVal_getOwn hL hg
    cases v with
    | none => cases h
    | some s' =>
      cases h
      exact this

theorem WFSlotStyles_mergeSlotStyles {b o : SlotStyles} (hb : WFSlotStyles b)
    (ho : WFSlotStyles o) : WFSlotStyles (mergeSlotStyles b o) := by
  unfold mergeSlotStyles
  refine foldl_preserve (P := WFSlotStyles) _ o ?_ _ hb
  intro r kv hr hkv
  have hcond := ho.2 kv hkv
  rcases kv with ⟨k, v⟩
  rcases v with _ | os
  · exact hr
  · show WFSlotStyles (match jsGet b k with
      | none => setKey r k (some os)
      | some baseSlot => setKey r k (some (mergeSlotStyleWithSelectors baseSlot os)))
    rcases hg : jsGet b k with _ | bs
    · exact WFSlotStyles_setKey hr (by exact hcond)
    · refine WFSlotStyles_setKey hr ?_
      show WFStyle (mergeSlotStyleWithSelectors bs os)
      exact WFStyle_mergeSlotStyleWithSelectors (WFStyle_jsGet hb hg) hcond

theorem WFVariantDef_setKey {r : VariantDef} {k : String} {w : Option SlotStyles}
    (hr : WFVariantDef r) (hw : WFVarDefVal w) : WFVariantDef (setKey r k w) := by
  refine ⟨nodup_keysOf_setKey _ hr.1, ?_⟩
  intro kv hkv
  rcases mem_setKey kv hkv with h | h
  · rw [h]; exact hw
  · exact hr.2 kv h

theorem WFSlotStyles_jsGet {d : VariantDef} {k : String} {L : SlotStyles}
    (hd : WFVariantDef d) (h : jsGet d k = some L) : WFSlotStyles L := by
  unfold jsGet at h
  rcases hg : getOwn d k with _ | v
  · rw [hg] at h; cases h
  · rw [hg] at h
    have := hd.2 (k, v) (getOwn_mem hg)
    cases v with
    | none => cases h
    | some L' =>
      cases h
      exact this

theorem WFVariantDef_mergeVariantValues {b o : VariantDef} (hb : WFVariantDef b)
    (ho : WFVariantDef o) : WFVariantDef (mergeVariantValues b o) := by
  unfold mergeVariantValues
  refine foldl_preserve (P := WFVariantDef) _ o ?_ _ hb
  intro r kv hr hkv
  have hcond := ho.2 kv hkv
  rcases kv with ⟨k, v⟩
  rcases v with _ | oL
  · exact hr
  · show WFVariantDef (match jsGet r k with
      | none => setKey r k (some oL)
      | some baseValue => setKey r k (some (mergeSlotStyles baseValue oL)))
    rcases hg : jsGet r k with _ | bL
    · exact WFVariantDef_setKey hr (by exact hcond)
    · refine WFVariantDef_setKey hr ?_
      show WFSlotStyles (mergeSlotStyles bL oL)
      exact WFSlotStyles_mergeSlotStyles (WFSlotStyles_jsGet hr hg) hcond

theorem WFVariants_setKey {r : Variants} {k : String} {w : Option VariantDef}
    (hr : WFVariants r) (hw : WFVarVal w) : WFVariants (setKey r k w) := by
  refine ⟨nodup_keysOf_setKey _ hr.1, ?_⟩
  intro kv hkv
  rcases mem_setKey kv hkv with h | h
  · rw [h]; exact hw
  · exact hr.2 kv h

theorem WFVariantDef_jsGet {v : Variants} {k : String} {d : VariantDef}
    (hv : WFVariants v) (h : jsGet v k = some d) : WFVariantDef d := by
  unfold jsGet at h
  rcases hg : getOwn v k with _ | w
  · rw [hg] at h; cases h
  · rw [hg] at h
    have := hv.2 (k, w) (getOwn_mem hg)
    cases w with
    | none => cases h
    | some d' =>
      cases h
      exact this

theorem WFVariants_mergeVariants {b o : Option Variants}
    (hb : WFVariants (b.getD [])) (ho : WFVariants (o.getD [])) :
    WFVariants (mergeVariants b o) := by
  cases b with
  | none =>
    cases o with
    | none =>
      show WFVariants []
      exact ⟨by simp [keysOf], by simp⟩
    | some ov => exact ho
  | some bv =>
    cases o with
    | none => exact hb
    | some ov =>
      show WFVariants (ov.foldl _ bv)
      refine foldl_preserve (P := WFVariants) _ ov ?_ _ hb
      intro r kv hr hkv
      have hcond := (ho : WFVariants ov).2 kv hkv
      show WFVariants (match jsGet r kv.1 with
        | none => setKey r kv.1 kv.2
        | some baseVariant =>
          match kv.2 with
          | none => setKey r kv.1 (some baseVariant)
          | some overrideVariant =>
            setKey r kv.1 (some (mergeVariantValues baseVariant overrideVariant)))
      rcases hg : jsGet r kv.1 with _ | bd
      · simp only [hg]
        exact WFVariants_setKey hr (by exact hcond)
      · simp only [hg]
        rcases hv : kv.2 with _ | od
        · simp only [hv]
          exact WFVariants_setKey hr (WFVariantDef_jsGet hr hg)
        · simp only [hv]
          rw [hv] at hcond
          refine WFVariants_setKey hr ?_
          show WFVariantDef (mergeVariantValues bd od)
          exact WFVariantDef_mergeVariantValues (WFVariantDef_jsGet hr hg) hcond

-- ============================================================================
-- Lookup characterizations of the merge operations
-- ============================================================================

/-- Shallow merge, observed through defined-property lookup: the override
wins wherever it is defined. -/
theorem jsGet_mergeStyle (b o : List (String × Option String))
    (hndo : (keysOf o).Nodup) (p : String) :
    jsGet (mergeStyle b o) p = oElse (jsGet o p) (jsGet b p) := by
  have raw := foldl_single_key
    (fun result kv =>
      match kv.2 with
      | none => result
      | some v => setKey result kv.1 (some v))
    p
    (fun v cur =>
      match v with
      | none => cur
      | some s => some (some s))
    (by
      intro r kv
      rcases kv with ⟨k', v⟩
      cases v with
      | none => intro _; rfl
      | some s => intro hk; exact getOwn_setKey_ne _ _ hk)
    (by
      intro r kv
      rcases kv with ⟨k', v⟩
      cases v with
      | none => intro _; rfl
      | some s =>
        intro hk
        have hk' : k' = p := hk
        subst hk'
        exact getOwn_setKey_self _ _ _)
    o b hndo
  show jsGet (o.foldl _ b) p = _
  unfold jsGet
  rw [raw]
  rcases getOwn o p with _ | (_ | s) <;> rcases getOwn b p with _ | w <;> rfl

/-- Raw lookup characterization of `mergeSlotStyleWithSelectors` at one
key. -/
theorem getOwn_mergeSlotStyleWithSelectors (b o : Style)
    (hndb : (keysOf b).Nodup) (hndo : (keysOf o).Nodup) (k : String) :
    getOwn (mergeSlotStyleWithSelectors b o) k =
      match getOwn o k with
      | some v =>
        (match v with
         | .undef => getOwn b k
         | ov =>
           if isSelectorKey k && isPlainObject ov then
             match ov, getOwn b k with
             | .obj ovf, some (.obj bsf) => some (.obj (mergeStyle bsf ovf))
             | .obj ovf, _ => some (.obj ovf)
             | v', _ => some v'
           else some ov)
      | none => getOwn b k := by
  have hbase : getOwn (b.foldl (fun result kv => setKey result kv.1 kv.2) []) k =
      getOwn b k := by
    show getOwn (spreadObj [] b) k = _
    rw [getOwn_spreadObj, lastEntry_eq_getOwn_of_nodup hndb]
    show oElse (getOwn b k) none = _
    exact oElse_none_right _
  have raw := foldl_single_key
    (fun (result : Style) (kv : String × JVal) =>
      match kv.2 with
      | .undef => result
      | overrideValue =>
        if isSelectorKey kv.1 && isPlainObject overrideValue then
          match overrideValue, getOwn result kv.1 with
          | .obj ovf, some (.obj baseSelector) =>
            setKey result kv.1 (.obj (mergeStyle baseSelector ovf))
          | .obj ovf, _ => setKey result kv.1 (.obj ovf)
          | v, _ => setKey result kv.1 v
        else setKey result kv.1 overrideValue)
    k
    (fun (v : JVal) (cur : Option JVal) =>
      match v with
      | .undef => cur
      | ov =>
        if isSelectorKey k && isPlainObject ov then
          match ov, cur with
          | .obj ovf, some (.obj bsf) => some (.obj (mergeStyle bsf ovf))
          | .obj ovf, _ => some (.obj ovf)
          | v', _ => some v'
        else some ov)
    (by
      intro r kv hk
      rcases kv with ⟨k', v⟩
      rcases v with _ | s | f
      · rfl
      · show getOwn (if isSelectorKey k' && isPlainObject (.prim s) then _
          else setKey r k' (.prim s)) k = getOwn r k
        rw [if_neg (by simp [isPlainObject])]
        exact getOwn_setKey_ne _ _ hk
      · show getOwn (if isSelectorKey k' && isPlainObject (.obj f) then
            match JVal.obj f, getOwn r k' with
            | .obj ovf, some (.obj baseSelector) =>
              setKey r k' (.obj (mergeStyle baseSelector ovf))
            | .obj ovf, _ => setKey r k' (.obj ovf)
            | v, _ => setKey r k' v
          else setKey r k' (.obj f)) k = getOwn r k
        by_cases hsk : isSelectorKey k'
        · rw [if_pos (by simp [isPlainObject, hsk])]
          rcases getOwn r k' with _ | (_ | s' | bf) <;>
            exact getOwn_setKey_ne _ _ hk
        · rw [if_neg (by simp [hsk])]
          exact getOwn_setKey_ne _ _ hk)
    (by
      intro r kv hk
      rcases kv with ⟨k', v⟩
      simp only at hk
      subst hk
      rcases v with _ | s | f
      · rfl
      · show getOwn (if isSelectorKey k' && isPlainObject (.prim s) then _
          else setKey r k' (.prim s)) k' =
          (if isSelectorKey k' && isPlainObject (.prim s) then
            match JVal.prim s, getOwn r k' with
            | .obj ovf, some (.obj bsf) => some (.obj (mergeStyle bsf ovf))
            | .obj ovf, _ => some (.obj ovf)
            | v', _ => some v'
          else some (.prim s))
        rw [if_neg (by simp [isPlainObject]), if_neg (by simp [isPlainObject])]
        exact getOwn_setKey_self _ _ _
      · show getOwn (if isSelectorKey k' && isPlainObject (.obj f) then
            match JVal.obj f, getOwn r k' with
            | .obj ovf, some (.obj baseSelector) =>
              setKey r k' (.obj (mergeStyle baseSelector ovf))
            | .obj ovf, _ => setKey r k' (.obj ovf)
            | v, _ => setKey r k' v
          else setKey r k' (.obj f)) k' =
          (if isSelectorKey k' && isPlainObject (.obj f) then
            match JVal.obj f, getOwn r k' with
            | .obj ovf, some (.obj bsf) => some (.obj (mergeStyle bsf ovf))
            | .obj ovf, _ => some (.obj ovf)
            | v', _ => some v'
          else some (.obj f))
        by_cases hsk : isSelectorKey k'
        · rw [if_pos (by simp [isPlainObject, hsk]), if_pos (by simp [isPlainObject, hsk])]
          rcases getOwn r k' with _ | (_ | s' | bf) <;>
            exact getOwn_setKey_self _ _ _
        · rw [if_neg (by simp [hsk]), if_neg (by simp [hsk])]
          exact getOwn_setKey_self _ _ _)
    o (b.foldl (fun result kv => setKey result kv.1 kv.2) []) hndo
  show getOwn (o.foldl _ (b.foldl (fun result kv => setKey result kv.1 kv.2) [])) k = _
  rw [raw, hbase]
  rcases getOwn o k with _ | v <;> rfl

/-- `mergeSlotStyleWithSelectors` at a non-selector key: the override's
defined value wins, else the base's. -/
theorem dGet_mergeSlotStyleWithSelectors_plain {b o : Style} (hb : WFStyle b)
    (ho : WFStyle o) {k : String} (hk : isSelectorKey k = false) :
    dGet (mergeSlotStyleWithSelectors b o) k = oElse (dGet o k) (dGet b k) := by
  unfold dGet
  rw [getOwn_mergeSlotStyleWithSelectors b o hb.1 ho.1]
  rcases getOwn o k with _ | v
  · rcases getOwn b k with _ | w
    · rfl
    · rcases w <;> rfl
  · rcases v with _ | s | f
    · rcases getOwn b k with _ | w
      · rfl
      · rcases w <;> rfl
    · simp only [hk, Bool.false_and, if_false]
      rfl
    · simp only [hk, Bool.false_and, if_false]
      rfl

/-- `mergeSlotStyleWithSelectors` at a selector key: defined override
selector objects merge one level deep onto base selector objects. -/
theorem dGet_mergeSlotStyleWithSelectors_sel {b o : Style} (hb : WFStyle b)
    (ho : WFStyle o) {k : String} (hk : isSelectorKey k = true) :
    dGet (mergeSlotStyleWithSelectors b o) k =
      match dGet o k with
      | none => dGet b k
      | some ov =>
        match ov, dGet b k with
        | .obj ovf, some (.obj bsf) => some (.obj (mergeStyle bsf ovf))
        | _, _ => some ov := by
  unfold dGet
  rw [getOwn_mergeSlotStyleWithSelectors b o hb.1 ho.1]
  rcases hgo : getOwn o k with _ | v
  · rcases getOwn b k with _ | w
    · rfl
    · rcases w <;> rfl
  · rcases v with _ | s | f
    · rcases getOwn b k with _ | w
      · rfl
      · rcases w <;> rfl
    · have := (ho.2 (k, .prim s) (getOwn_mem hgo)).1 hk
      rcases this with h | h
      · cases h
      · cases h
    · simp only [hk, Bool.true_and, isPlainObject, if_true]
      rcases getOwn b k with _ | w
      · rfl
      · rcases w <;> rfl

/-- `mergeSlotStyles`, observed slot-wise. -/
theorem jsGet_mergeSlotStyles (b o : SlotStyles) (hndo : (keysOf o).Nodup)
    (slot : String) :
    jsGet (mergeSlotStyles b o) slot =
      match jsGet o slot with
      | none => jsGet b slot
      | some os =>
        match jsGet b slot with
        | none => some os
        | some bs => some (mergeSlotStyleWithSelectors bs os) := by
  have raw := foldl_single_key
    (fun (result : SlotStyles) (kv : String × Option Style) =>
      match kv.2 with
      | none => result
      | some overrideSlot =>
        match jsGet b kv.1 with
        | none => setKey result kv.1 (some overrideSlot)
        | some baseSlot =>
          setKey result kv.1 (some (mergeSlotStyleWithSelectors baseSlot overrideSlot)))
    slot
    (fun (v : Option Style) (cur : Option (Option Style)) =>
      match v with
      | none => cur
      | some os =>
        some (match jsGet b slot with
          | none => some os
          | some bs => some (mergeSlotStyleWithSelectors bs os)))
    (by
      intro r kv
      rcases kv with ⟨k', v⟩
      cases v with
      | none => intro _; rfl
      | some os =>
        intro hk
        show getOwn (match jsGet b k' with
          | none => setKey r k' (some os)
          | some baseSlot =>
            setKey r k' (some (mergeSlotStyleWithSelectors baseSlot os))) slot
          = getOwn r slot
        rcases jsGet b k' with _ | bs <;> exact getOwn_setKey_ne _ _ hk)
    (by
      intro r kv
      rcases kv with ⟨k', v⟩
      cases v with
      | none => intro _; rfl
      | some os =>
        intro hk
        have hk' : k' = slot := hk
        subst hk'
        show getOwn (match jsGet b k' with
          | none => setKey r k' (some os)
          | some baseSlot =>
            setKey r k' (some (mergeSlotStyleWithSelectors baseSlot os))) k'
          = some (match jsGet b k' with
            | none => some os
            | some bs => some (mergeSlotStyleWithSelectors bs os))
        rcases jsGet b k' with _ | bs <;> exact getOwn_setKey_self _ _ _)
    o b hndo
  rcases hgo : getOwn o slot with _ | v
  · have h1 : getOwn (mergeSlotStyles b o) slot = getOwn b slot := by
      have h := raw
      rw [hgo] at h
      exact h
    simp only [jsGet_def, h1, hgo]
  · rcases v with _ | os
    · have h1 : getOwn (mergeSlotStyles b o) slot = getOwn b slot := by
        have h := raw
        rw [hgo] at h
        exact h
      simp only [jsGet_def, h1, hgo]
    · have h1 : getOwn (mergeSlotStyles b o) slot =
          some (match jsGet b slot with
            | none => some os
            | some bs => some (mergeSlotStyleWithSelectors bs os)) := by
        have h := raw
        rw [hgo] at h
        exact h
      simp only [jsGet_def, h1, hgo]

/-- `mergeVariantValues`, observed value-wise. -/
theorem jsGet_mergeVariantValues (b o : VariantDef) (hndo : (keysOf o).Nodup)
    (val : String) :
    jsGet (mergeVariantValues b o) val =
      match jsGet o val with
      | none => jsGet b val
      | some oL =>
        match jsGet b val with
        | none => some oL
        | some bL => some (mergeSlotStyles bL oL) := by
  have raw := foldl_single_key
    (fun (result : VariantDef) (kv : String × Option SlotStyles) =>
      match kv.2 with
      | none => result
      | some overrideValue =>
        match jsGet result kv.1 with
        | none => setKey result kv.1 (some overrideValue)
        | some baseValue =>
          setKey result kv.1 (some (mergeSlotStyles baseValue overrideValue)))
    val
    (fun (v : Option SlotStyles) (cur : Option (Option SlotStyles)) =>
      match v with
      | none => cur
      | some oL =>
        some (match cur with
          | some (some bL) => some (mergeSlotStyles bL oL)
          | _ => some oL))
    (by
      intro r kv
      rcases kv with ⟨k', v⟩
      cases v with
      | none => intro _; rfl
      | some oL =>
        intro hk
        show getOwn (match jsGet r k' with
          | none => setKey r k' (some oL)
          | some baseValue => setKey r k' (some (mergeSlotStyles baseValue oL))) val
          = getOwn r val
        rcases jsGet r k' with _ | bL <;> exact getOwn_setKey_ne _ _ hk)
    (by
      intro r kv
      rcases kv with ⟨k', v⟩
      cases v with
      | none => intro _; rfl
      | some oL =>
        intro hk
        have hk' : k' = val := hk
        subst hk'
        show getOwn (match jsGet r k' with
          | none => setKey r k' (some oL)
          | some baseValue => setKey r k' (some (mergeSlotStyles baseValue oL))) k'
          = some (match getOwn r k' with
            | some (some bL) => some (mergeSlotStyles bL oL)
            | _ => some oL)
        rcases hgr : getOwn r k' with _ | (_ | bL) <;>
          simp only [jsGet_def, hgr] <;> exact getOwn_setKey_self _ _ _)
    o b hndo
  rcases hgo : getOwn o val with _ | v
  · have h1 : getOwn (mergeVariantValues b o) val = getOwn b val := by
      have h := raw
      rw [hgo] at h
      exact h
    simp only [jsGet_def, h1, hgo]
  · rcases v with _ | oL
    · have h1 : getOwn (mergeVariantValues b o) val = getOwn b val := by
        have h := raw
        rw [hgo] at h
        exact h
      simp only [jsGet_def, h1, hgo]
    · have h1 : getOwn (mergeVariantValues b o) val =
          some (match getOwn b val with
            | some (some bL) => some (mergeSlotStyles bL oL)
            | _ => some oL) := by
        have h := raw
        rw [hgo] at h
        exact h
      simp only [jsGet_def, h1, hgo]
      rcases getOwn b val with _ | (_ | bL) <;> rfl

/-- `mergeVariants` on two present tables, observed name-wise. -/
theorem jsGet_mergeVariants_some (b o : Variants) (hndo : (keysOf o).Nodup)
    (name : String) :
    jsGet (mergeVariants (some b) (some o)) name =
      match jsGet o name with
      | none => jsGet b name
      | some od =>
        match jsGet b name with
        | none => some od
        | some bd => some (mergeVariantValues bd od) := by
  have raw := foldl_single_key
    (fun (result : Variants) (kv : String × Option VariantDef) =>
      match jsGet result kv.1 with
      | none => setKey result kv.1 kv.2
      | some baseVariant =>
        match kv.2 with
        | none => setKey result kv.1 (some baseVariant)
        | some overrideVariant =>
          setKey result kv.1 (some (mergeVariantValues baseVariant overrideVariant)))
    name
    (fun (v : Option VariantDef) (cur : Option (Option VariantDef)) =>
      match cur with
      | some (some bd) =>
        match v with
        | none => some (some bd)
        | some od => some (some (mergeVariantValues bd od))
      | _ => some v)
    (by
      intro r kv
      rcases kv with ⟨k', v⟩
      intro hk
      have hk₂ : k' ≠ name := hk
      clear hk
      show getOwn (match jsGet r k' with
        | none => setKey r k' v
        | some baseVariant =>
          match v with
          | none => setKey r k' (some baseVariant)
          | some overrideVariant =>
            setKey r k' (some (mergeVariantValues baseVariant overrideVariant))) name
        = getOwn r name
      rcases jsGet r k' with _ | bd
      · exact getOwn_setKey_ne _ _ hk₂
      · rcases v with _ | od <;> exact getOwn_setKey_ne _ _ hk₂)
    (by
      intro r kv
      rcases kv with ⟨k', v⟩
      intro hk
      have hk' : k' = name := hk
      clear hk
      subst hk'
      show getOwn (match jsGet r k' with
        | none => setKey r k' v
        | some baseVariant =>
          match v with
          | none => setKey r k' (some baseVariant)
          | some overrideVariant =>
            setKey r k' (some (mergeVariantValues baseVariant overrideVariant))) k'
        = (match getOwn r k' with
          | some (some bd) =>
            match v with
            | none => some (some bd)
            | some od => some (some (mergeVariantValues bd od))
          | _ => some v)
      rcases hgr : getOwn r k' with _ | (_ | bd)
      · simp only [jsGet_def, hgr]
        exact getOwn_setKey_self _ _ _
      · simp only [jsGet_def, hgr]
        exact getOwn_setKey_self _ _ _
      · simp only [jsGet_def, hgr]
        rcases v with _ | od <;> exact getOwn_setKey_self _ _ _)
    o b hndo
  show jsGet (o.foldl (fun (result : Variants) (kv : String × Option VariantDef) =>
      match jsGet result kv.1 with
      | none => setKey result kv.1 kv.2
      | some baseVariant =>
        match kv.2 with
        | none => setKey result kv.1 (some baseVariant)
        | some overrideVariant =>
          setKey result kv.1 (some (mergeVariantValues baseVariant overrideVariant))) b)
    name = _
  rw [jsGet_def, raw]
  rcases hgo : getOwn o name with _ | v
  · simp only [jsGet_def, hgo]
  · rcases v with _ | od
    · simp only [jsGet_def, hgo]
      rcases hgb : getOwn b name with _ | (_ | bd) <;> simp only [hgb]
    · simp only [jsGet_def, hgo]
      rcases hgb : getOwn b name with _ | (_ | bd) <;> simp only [hgb]

-- ============================================================================
-- Key order of merged variant tables
-- ============================================================================

/-- Ordered key union: existing keys keep their position, new keys append
in iteration order. -/
def unionKeys (ks : List String) (new : List String) : List String :=
  new.foldl (fun ks k => if k ∈ ks then ks else ks ++ [k]) ks

theorem mem_unionKeys (ks new : List String) (k : String) :
    k ∈ unionKeys ks new ↔ k ∈ ks ∨ k ∈ new := by
  induction new generalizing ks with
  | nil => simp [unionKeys]
  | cons x new ih =>
    show k ∈ unionKeys (if x ∈ ks then ks else ks ++ [x]) new ↔ _
    rw [ih]
    by_cases hx : x ∈ ks
    · rw [if_pos hx]
      simp only [List.mem_cons]
      constructor
      · rintro (h | h)
        · exact Or.inl h
        · exact Or.inr (Or.inr h)
      · rintro (h | h | h)
        · exact Or.inl h
        · exact Or.inl (h ▸ hx)
        · exact Or.inr h
    · rw [if_neg hx]
      simp only [List.mem_append, List.mem_singleton, List.mem_cons]
      tauto

theorem unionKeys_append (a b c : List String) :
    unionKeys a (b ++ c) = unionKeys (unionKeys a b) c := by
  simp [unionKeys, List.foldl_append]

theorem unionKeys_unionKeys_right (a b c : List String) :
    unionKeys a (unionKeys b c) = unionKeys (unionKeys a b) c := by
  induction c generalizing b with
  | nil => rfl
  | cons x c ih =>
    show unionKeys a (unionKeys (if x ∈ b then b else b ++ [x]) c) = _
    rw [ih]
    have hswap : unionKeys a (if x ∈ b then b else b ++ [x]) =
        (if x ∈ unionKeys a b then unionKeys a b else unionKeys a b ++ [x]) := by
      by_cases hx : x ∈ b
      · rw [if_pos hx, if_pos ((mem_unionKeys a b x).2 (Or.inr hx))]
      · rw [if_neg hx, unionKeys_append a b [x]]
        show (if x ∈ unionKeys a b then unionKeys a b else unionKeys a b ++ [x]) = _
        rfl
    rw [hswap]
    rfl

/-- The keys of a merged variants table: base keys in place, new override
keys appended in order. -/
theorem keysOf_mergeVariants_some (b o : Variants) :
    keysOf (mergeVariants (some b) (some o)) = unionKeys (keysOf b) (keysOf o) := by
  show keysOf (o.foldl _ b) = _
  induction o generalizing b with
  | nil => rfl
  | cons e o ih =>
    rw [List.foldl_cons]
    have hstep : ∀ (r : Variants),
        keysOf (match jsGet r e.1 with
          | none => setKey r e.1 e.2
          | some baseVariant =>
            match e.2 with
            | none => setKey r e.1 (some baseVariant)
            | some overrideVariant =>
              setKey r e.1 (some (mergeVariantValues baseVariant overrideVariant))) =
          if e.1 ∈ keysOf r then keysOf r else keysOf r ++ [e.1] := by
      intro r
      rcases jsGet r e.1 with _ | bd
      · exact keysOf_setKey r e.1 e.2
      · rcases e.2 with _ | od
        · exact keysOf_setKey r e.1 _
        · exact keysOf_setKey r e.1 _
    have := ih (match jsGet b e.1 with
      | none => setKey b e.1 e.2
      | some baseVariant =>
        match e.2 with
        | none => setKey b e.1 (some baseVariant)
        | some overrideVariant =>
          setKey b e.1 (some (mergeVariantValues baseVariant overrideVariant)))
    rw [this, hstep b]
    show unionKeys (if e.1 ∈ keysOf b then keysOf b else keysOf b ++ [e.1]) (keysOf o) = _
    rfl

-- ============================================================================
-- Associativity of the merge, level by level
-- ============================================================================

theorem mergeStyle_assoc (a b c : List (String × Option String))
    (hndb : (keysOf b).Nodup) (hndc : (keysOf c).Nodup) (p : String) :
    jsGet (mergeStyle a (mergeStyle b c)) p =
      jsGet (mergeStyle (mergeStyle a b) c) p := by
  rw [jsGet_mergeStyle _ _ (nodup_keysOf_mergeStyle c hndb),
    jsGet_mergeStyle _ _ hndc, jsGet_mergeStyle _ _ hndc,
    jsGet_mergeStyle _ _ hndb, oElse_assoc]

/-- The shape of a well-formed style's selector value: absent or a plain
object with unique inner keys. -/
theorem dGet_sel_shape {s : Style} (hs : WFStyle s) {k : String}
    (hk : isSelectorKey k = true) :
    dGet s k = none ∨ ∃ f, dGet s k = some (.obj f) ∧ (keysOf f).Nodup := by
  unfold dGet
  rcases hg : getOwn s k with _ | v
  · exact Or.inl rfl
  · have hcond := hs.2 (k, v) (getOwn_mem hg)
    rcases v with _ | s' | f
    · exact Or.inl rfl
    · rcases hcond.1 hk with h | h
      · cases h
      · cases h
    · exact Or.inr ⟨f, rfl, by simpa [objFields] using hcond.2⟩

theorem selValEquiv_refl {x : Option JVal}
    (h : x = none ∨ ∃ f, x = some (.obj f)) : selValEquiv x x := by
  rcases h with rfl | ⟨f, rfl⟩
  · trivial
  · intro p
    rfl

theorem mergeSlotStyleWithSelectors_assoc (a b c : Style) (ha : WFStyle a)
    (hb : WFStyle b) (hc : WFStyle c) :
    StyleEquiv (mergeSlotStyleWithSelectors a (mergeSlotStyleWithSelectors b c))
      (mergeSlotStyleWithSelectors (mergeSlotStyleWithSelectors a b) c) := by
  have hbc := WFStyle_mergeSlotStyleWithSelectors hb hc
  have hab := WFStyle_mergeSlotStyleWithSelectors ha hb
  intro k
  constructor
  · intro hk
    rw [dGet_mergeSlotStyleWithSelectors_sel ha hbc hk,
      dGet_mergeSlotStyleWithSelectors_sel hb hc hk,
      dGet_mergeSlotStyleWithSelectors_sel hab hc hk,
      dGet_mergeSlotStyleWithSelectors_sel ha hb hk]
    rcases dGet_sel_shape ha hk with hA | ⟨fa, hA, hfa⟩ <;>
      rcases dGet_sel_shape hb hk with hB | ⟨fb, hB, hfb⟩ <;>
        rcases dGet_sel_shape hc hk with hC | ⟨fc, hC, hfc⟩ <;>
          rw [hA, hB, hC] <;> try exact selValEquiv_refl (Or.inl rfl)
    · exact selValEquiv_refl (Or.inr ⟨fc, rfl⟩)
    · exact selValEquiv_refl (Or.inr ⟨fb, rfl⟩)
    · exact selValEquiv_refl (Or.inr ⟨mergeStyle fb fc, rfl⟩)
    · exact selValEquiv_refl (Or.inr ⟨fa, rfl⟩)
    · exact selValEquiv_refl (Or.inr ⟨mergeStyle fa fc, rfl⟩)
    · exact selValEquiv_refl (Or.inr ⟨mergeStyle fa fb, rfl⟩)
    · exact fun p => mergeStyle_assoc fa fb fc hfb hfc p
  · intro hk
    rw [dGet_mergeSlotStyleWithSelectors_plain ha hbc hk,
      dGet_mergeSlotStyleWithSelectors_plain hb hc hk,
      dGet_mergeSlotStyleWithSelectors_plain hab hc hk,
      dGet_mergeSlotStyleWithSelectors_plain ha hb hk, oElse_assoc]

theorem StyleEquiv_refl {s : Style} (hs : WFStyle s) : StyleEquiv s s := by
  intro k
  constructor
  · intro hk
    exact selValEquiv_refl (by
      rcases dGet_sel_shape hs hk with h | ⟨f, h, _⟩
      · exact Or.inl h
      · exact Or.inr ⟨f, h⟩)
  · intro _
    rfl

theorem SlotStylesEquiv_refl {L : SlotStyles} (h : WFSlotStyles L) :
    SlotStylesEquiv L L := by
  intro slot
  rcases hg : jsGet L slot with _ | s
  · trivial
  · exact StyleEquiv_refl (WFStyle_jsGet h hg)

theorem mergeSlotStyles_assoc (a b c : SlotStyles) (ha : WFSlotStyles a)
    (hb : WFSlotStyles b) (hc : WFSlotStyles c) :
    SlotStylesEquiv (mergeSlotStyles a (mergeSlotStyles b c))
      (mergeSlotStyles (mergeSlotStyles a b) c) := by
  have hbc := WFSlotStyles_mergeSlotStyles hb hc
  have hab := WFSlotStyles_mergeSlotStyles ha hb
  intro slot
  rw [jsGet_mergeSlotStyles a _ hbc.1 slot, jsGet_mergeSlotStyles b c hc.1 slot,
    jsGet_mergeSlotStyles _ c hc.1 slot, jsGet_mergeSlotStyles a b hb.1 slot]
  rcases hC : jsGet c slot with _ | cs <;> rcases hB : jsGet b slot with _ | bs <;>
    rcases hA : jsGet a slot with _ | sa
  · trivial
  · exact StyleEquiv_refl (WFStyle_jsGet ha hA)
  · exact StyleEquiv_refl (WFStyle_jsGet hb hB)
  · exact StyleEquiv_refl
      (WFStyle_mergeSlotStyleWithSelectors (WFStyle_jsGet ha hA) (WFStyle_jsGet hb hB))
  · exact StyleEquiv_refl (WFStyle_jsGet hc hC)
  · exact StyleEquiv_refl
      (WFStyle_mergeSlotStyleWithSelectors (WFStyle_jsGet ha hA) (WFStyle_jsGet hc hC))
  · exact StyleEquiv_refl
      (WFStyle_mergeSlotStyleWithSelectors (WFStyle_jsGet hb hB) (WFStyle_jsGet hc hC))
  · exact mergeSlotStyleWithSelectors_assoc sa bs cs (WFStyle_jsGet ha hA)
      (WFStyle_jsGet hb hB) (WFStyle_jsGet hc hC)

theorem VariantDefEquiv_refl {d : VariantDef} (h : WFVariantDef d) :
    VariantDefEquiv d d := by
  intro value
  rcases hg : jsGet d value with _ | L
  · trivial
  · exact SlotStylesEquiv_refl (WFSlotStyles_jsGet h hg)

theorem mergeVariantValues_assoc (a b c : VariantDef) (ha : WFVariantDef a)
    (hb : WFVariantDef b) (hc : WFVariantDef c) :
    VariantDefEquiv (mergeVariantValues a (mergeVariantValues b c))
      (mergeVariantValues (mergeVariantValues a b) c) := by
  have hbc := WFVariantDef_mergeVariantValues hb hc
  have hab := WFVariantDef_mergeVariantValues ha hb
  intro value
  rw [jsGet_mergeVariantValues a _ hbc.1 value, jsGet_mergeVariantValues b c hc.1 value,
    jsGet_mergeVariantValues _ c hc.1 value, jsGet_mergeVariantValues a b hb.1 value]
  rcases hC : jsGet c value with _ | cL <;> rcases hB : jsGet b value with _ | bL <;>
    rcases hA : jsGet a value with _ | aL
  · trivial
  · exact SlotStylesEquiv_refl (WFSlotStyles_jsGet ha hA)
  · exact SlotStylesEquiv_refl (WFSlotStyles_jsGet hb hB)
  · exact SlotStylesEquiv_refl
      (WFSlotStyles_mergeSlotStyles (WFSlotStyles_jsGet ha hA) (WFSlotStyles_jsGet hb hB))
  · exact SlotStylesEquiv_refl (WFSlotStyles_jsGet hc hC)
  · exact SlotStylesEquiv_refl
      (WFSlotStyles_mergeSlotStyles (WFSlotStyles_jsGet ha hA) (WFSlotStyles_jsGet hc hC))
  · exact SlotStylesEquiv_refl
      (WFSlotStyles_mergeSlotStyles (WFSlotStyles_jsGet hb hB) (WFSlotStyles_jsGet hc hC))
  · exact mergeSlotStyles_assoc aL bL cL (WFSlotStyles_jsGet ha hA)
      (WFSlotStyles_jsGet hb hB) (WFSlotStyles_jsGet hc hC)

theorem mergeVariants_assoc_some (a b c : Variants) (ha : WFVariants a)
    (hb : WFVariants b) (hc : WFVariants c) :
    VariantsEquiv (mergeVariants (some a) (some (mergeVariants (some b) (some c))))
      (mergeVariants (some (mergeVariants (some a) (some b))) (some c)) := by
  have hbc : WFVariants (mergeVariants (some b) (some c)) :=
    WFVariants_mergeVariants (b := some b) (o := some c) hb hc
  have hab : WFVariants (mergeVariants (some a) (some b)) :=
    WFVariants_mergeVariants (b := some a) (o := some b) ha hb
  constructor
  · rw [keysOf_mergeVariants_some, keysOf_mergeVariants_some,
      keysOf_mergeVariants_some, keysOf_mergeVariants_some]
    exact unionKeys_unionKeys_right (keysOf a) (keysOf b) (keysOf c)
  · intro name
    rw [jsGet_mergeVariants_some a _ hbc.1 name, jsGet_mergeVariants_some b c hc.1 name,
      jsGet_mergeVariants_some _ c hc.1 name, jsGet_mergeVariants_some a b hb.1 name]
    rcases hC : jsGet c name with _ | cd <;> rcases hB : jsGet b name with _ | bd <;>
      rcases hA : jsGet a name with _ | ad
    · trivial
    · exact VariantDefEquiv_refl (WFVariantDef_jsGet ha hA)
    · exact VariantDefEquiv_refl (WFVariantDef_jsGet hb hB)
    · exact VariantDefEquiv_refl
        (WFVariantDef_mergeVariantValues (WFVariantDef_jsGet ha hA) (WFVariantDef_jsGet hb hB))
    · exact VariantDefEquiv_refl (WFVariantDef_jsGet hc hC)
    · exact VariantDefEquiv_refl
        (WFVariantDef_mergeVariantValues (WFVariantDef_jsGet ha hA) (WFVariantDef_jsGet hc hC))
    · exact VariantDefEquiv_refl
        (WFVariantDef_mergeVariantValues (WFVariantDef_jsGet hb hB) (WFVariantDef_jsGet hc hC))
    · exact mergeVariantValues_assoc ad bd cd (WFVariantDef_jsGet ha hA)
        (WFVariantDef_jsGet hb hB) (WFVariantDef_jsGet hc hC)

/-- `mergeVariants` on optional tables normalizes to present tables. -/
theorem mergeVariants_norm (x y : Option Variants)
    (hnd : (keysOf (y.getD [])).Nodup) :
    mergeVariants x y = mergeVariants (some (x.getD [])) (some (y.getD [])) := by
  cases x with
  | some b =>
    cases y with
    | some o => rfl
    | none => rfl
  | none =>
    cases y with
    | some o =>
      rw [Option.getD_some, Option.getD_none]
      rw [mergeVariants_disjoint o [] (by simpa using hnd) (fun k _ => rfl)]
      rfl
    | none => rfl

-- ============================================================================
-- Congruence: equivalent configs resolve identically
-- ============================================================================

/-- The write a defined selector property performs. -/
def selVal : Option String → Option JVal
  | none => none
  | some v => some (.prim v)

/-- The write a defined plain property performs. -/
def plainVal : JVal → Option JVal
  | .undef => none
  | v => some v

theorem lastWrite_selEntry (f : List (String × Option String)) (p : String)
    (hnd : (keysOf f).Nodup) :
    lastWrite (selEntryWrite p) f =
      match jsGet f p with
      | some v => some (.prim v)
      | none => none := by
  have hcongr : ∀ kv ∈ f, selEntryWrite p kv =
      (fun kv : String × Option String =>
        if kv.1 = p then selVal kv.2 else none) kv := by
    intro kv _
    rcases kv with ⟨k, v⟩
    rcases v with _ | s
    · simp [selEntryWrite, selVal]
    · simp only [selEntryWrite, selVal]
  rw [lastWrite_congr f hcongr, lastWrite_key_of_nodup selVal f p hnd]
  rcases hg : getOwn f p with _ | v
  · simp [jsGet_def, hg]
  · rcases v with _ | s <;> simp [jsGet_def, hg, selVal]

theorem lastWrite_plainEntry (s : Style) (p : String) (hnd : (keysOf s).Nodup) :
    lastWrite (plainEntryWrite p) s =
      if isSelectorKey p = true then none else dGet s p := by
  by_cases hp : isSelectorKey p
  · rw [if_pos hp]
    refine lastWrite_eq_none ?_
    intro kv _
    rcases kv with ⟨k, v⟩
    by_cases hk : k = p
    · subst hk
      simp [plainEntryWrite, hp]
    · rcases v with _ | s' | f <;> simp [plainEntryWrite, hk]
  · rw [if_neg hp]
    have hcongr : ∀ kv ∈ s, plainEntryWrite p kv =
        (fun kv : String × JVal =>
          if kv.1 = p then plainVal kv.2 else none) kv := by
      intro kv _
      rcases kv with ⟨k, v⟩
      by_cases hk : k = p
      · subst hk
        rcases v with _ | s' | f <;> simp [plainEntryWrite, plainVal, hp]
      · rcases v with _ | s' | f <;>
          by_cases hs : isSelectorKey k <;>
            simp [plainEntryWrite, plainVal, hs, hk]
    rw [lastWrite_congr s hcongr, lastWrite_key_of_nodup plainVal s p hnd]
    unfold dGet
    rcases getOwn s p with _ | v
    · rfl
    · rcases v <;> rfl

theorem stateKeyWrite_eq_dGet {s : Style} (hs : WFStyle s)
    (st : ComponentState) (p k : String) :
    stateKeyWrite s st p k =
      if getOwn st k = some true then
        (match dGet s (selectorKey k) with
         | some (.obj f) =>
           (match jsGet f p with
            | some v => some (.prim v)
            | none => none)
         | _ => none)
      else none := by
  unfold stateKeyWrite
  by_cases hact : getOwn st k = some true
  · rw [if_pos hact, if_pos hact]
    unfold dGet
    rcases hg : getOwn s (selectorKey k) with _ | v
    · rfl
    · rcases v with _ | s' | f
      · rfl
      · rfl
      · have hf : (keysOf f).Nodup := by
          simpa [objFields] using (hs.2 (selectorKey k, .obj f) (getOwn_mem hg)).2
        exact lastWrite_selEntry f p hf
  · rw [if_neg hact, if_neg hact]

theorem flatWrite_congr {s₁ s₂ : Style} (h₁ : WFStyle s₁) (h₂ : WFStyle s₂)
    (he : StyleEquiv s₁ s₂) (st : ComponentState) (sk : List String) (p : String) :
    flatWrite s₁ st sk p = flatWrite s₂ st sk p := by
  unfold flatWrite
  have hplain : lastWrite (plainEntryWrite p) s₁ = lastWrite (plainEntryWrite p) s₂ := by
    rw [lastWrite_plainEntry s₁ p h₁.1, lastWrite_plainEntry s₂ p h₂.1]
    by_cases hp : isSelectorKey p
    · simp [hp]
    · simp only [hp, Bool.false_eq_true, if_false]
      exact (he p).2 (by simpa using hp)
  have hsel : ∀ k ∈ sk, stateKeyWrite s₁ st p k = stateKeyWrite s₂ st p k := by
    intro k _
    rw [stateKeyWrite_eq_dGet h₁ st p k, stateKeyWrite_eq_dGet h₂ st p k]
    by_cases hact : getOwn st k = some true
    · rw [if_pos hact, if_pos hact]
      have hequiv := (he (selectorKey k)).1 (isSelectorKey_selectorKey k)
      rcases hd₁ : dGet s₁ (selectorKey k) with _ | v₁
      · rcases hd₂ : dGet s₂ (selectorKey k) with _ | v₂
        · rfl
        · rw [hd₁, hd₂] at hequiv
          rcases v₂ with _ | s' | f₂ <;> exact (hequiv : False).elim
      · rcases hd₂ : dGet s₂ (selectorKey k) with _ | v₂
        · rw [hd₁, hd₂] at hequiv
          rcases v₁ with _ | s' | f₁ <;> exact (hequiv : False).elim
        · rw [hd₁, hd₂] at hequiv
          rcases v₁ with _ | s' | f₁ <;> rcases v₂ with _ | s'' | f₂ <;>
            first
            | exact (hequiv : False).elim
            | (have hq : jsGet f₁ p = jsGet f₂ p := hequiv p
               show (match jsGet f₁ p with
                     | some v => some (JVal.prim v)
                     | none => none) =
                   (match jsGet f₂ p with
                     | some v => some (JVal.prim v)
                     | none => none)
               rw [hq])
    · rw [if_neg hact, if_neg hact]
  rw [hplain, lastWrite_congr sk hsel]

theorem any_congr_mem {l : List γ} {f g : γ → Bool} (h : ∀ x ∈ l, f x = g x) :
    l.any f = l.any g := by
  induction l with
  | nil => rfl
  | cons x l ih =>
    rw [List.any_cons, List.any_cons, h x (List.mem_cons_self x l),
      ih fun y hy => h y (List.mem_cons_of_mem x hy)]

theorem jsGet_eq_of_getOwn {o : List (String × Option α)} {k : String}
    {v : Option α} (h : getOwn o k = some v) : jsGet o k = v := by
  rw [jsGet_def, h]

theorem getOwn_isSome_of_mem_keysOf {o : List (String × α)} {k : String}
    (h : k ∈ keysOf o) : ∃ v, getOwn o k = some v := by
  induction o with
  | nil => cases h
  | cons e o' ih =>
    rw [getOwn_cons]
    by_cases he : e.1 = k
    · exact ⟨e.2, by rw [if_pos he]⟩
    · rw [if_neg he]
      refine ih ?_
      rcases List.mem_cons.1 h with h1 | h1
      · exact absurd h1.symm he
      · exact h1

/-- A `lastWrite` over a unique-keyed object rewrites as a `lastWrite`
over its key list, looking each entry up by key. -/
theorem lastWrite_by_keys {α β : Type _} (W : String × α → Option β)
    (o : List (String × α)) (hnd : (keysOf o).Nodup) :
    lastWrite W o =
      lastWrite (fun k =>
        match getOwn o k with
        | some val => W (k, val)
        | none => none) (keysOf o) := by
  induction o with
  | nil => rfl
  | cons e o' ih =>
    simp only [keysOf, List.map_cons, List.nodup_cons] at hnd
    show oElse (lastWrite W o') (W e) = _
    rw [show keysOf (e :: o') = e.1 :: keysOf o' from rfl, lastWrite_cons]
    have h1 : lastWrite (fun k =>
        match getOwn (e :: o') k with
        | some val => W (k, val)
        | none => none) (keysOf o') =
      lastWrite (fun k =>
        match getOwn o' k with
        | some val => W (k, val)
        | none => none) (keysOf o') := by
      refine lastWrite_congr _ ?_
      intro k hk
      have hne : e.1 ≠ k := fun he => hnd.1 (he ▸ hk)
      rw [getOwn_cons, if_neg hne]
    have h2 : (match getOwn (e :: o') e.1 with
        | some val => W (e.1, val)
        | none => none) = W e := by
      rw [getOwn_cons, if_pos rfl]
    rw [h1, h2, ih hnd.2]

/-- A `List.any` over a unique-keyed object rewrites as an `any` over its
key list, looking each entry up by key. -/
theorem any_by_keys {α : Type _} (W : String × α → Bool)
    (o : List (String × α)) (hnd : (keysOf o).Nodup) :
    o.any W =
      (keysOf o).any (fun k =>
        match getOwn o k with
        | some val => W (k, val)
        | none => false) := by
  induction o with
  | nil => rfl
  | cons e o' ih =>
    simp only [keysOf, List.map_cons, List.nodup_cons] at hnd
    rw [List.any_cons, show keysOf (e :: o') = e.1 :: keysOf o' from rfl,
      List.any_cons]
    have h1 : ((keysOf o').any fun k =>
        match getOwn (e :: o') k with
        | some val => W (k, val)
        | none => false) =
      ((keysOf o').any fun k =>
        match getOwn o' k with
        | some val => W (k, val)
        | none => false) := by
      refine any_congr_mem ?_
      intro k hk
      have hne : e.1 ≠ k := fun he => hnd.1 (he ▸ hk)
      rw [getOwn_cons, if_neg hne]
    have h2 : (match getOwn (e :: o') e.1 with
        | some val => W (e.1, val)
        | none => false) = W e := by
      rw [getOwn_cons, if_pos rfl]
    rw [h1, h2, ih hnd.2]

/-- The write one slot value of a layer contributes at property `p`. -/
def slotWrite (st : ComponentState) (sk : List String) (p : String) :
    Option Style → Option JVal
  | none => none
  | some style => flatWrite style st sk p

/-- A layer's write at `(slot, p)` is determined by the layer's defined
entry for `slot`, when the layer's keys are unique. -/
theorem layerWrite_eq (L : SlotStyles) (hnd : (keysOf L).Nodup)
    (st : ComponentState) (sk : List String) (slot p : String) :
    layerWrite L st sk slot p = slotWrite st sk p (jsGet L slot) := by
  unfold layerWrite
  have hcongr : ∀ kv ∈ L, layerEntryWrite st sk slot p kv =
      (fun kv : String × Option Style =>
        if kv.1 = slot then slotWrite st sk p kv.2 else none) kv := by
    intro kv _
    rcases kv with ⟨k, v⟩
    rcases v with _ | s
    · simp [layerEntryWrite, slotWrite]
    · simp only [layerEntryWrite, slotWrite]
  rw [lastWrite_congr L hcongr,
    lastWrite_key_of_nodup (slotWrite st sk p) L slot hnd]
  rcases hg : getOwn L slot with _ | v
  · rw [show jsGet L slot = none from by rw [jsGet_def, hg]]
    rfl
  · rw [jsGet_eq_of_getOwn hg]

theorem layerWrite_congr {L₁ L₂ : SlotStyles} (h₁ : WFSlotStyles L₁)
    (h₂ : WFSlotStyles L₂) (he : SlotStylesEquiv L₁ L₂)
    (st : ComponentState) (sk : List String) (slot p : String) :
    layerWrite L₁ st sk slot p = layerWrite L₂ st sk slot p := by
  rw [layerWrite_eq L₁ h₁.1 st sk slot p, layerWrite_eq L₂ h₂.1 st sk slot p]
  have hequiv := he slot
  rcases hg₁ : jsGet L₁ slot with _ | s₁
  · rcases hg₂ : jsGet L₂ slot with _ | s₂
    · rfl
    · rw [hg₁, hg₂] at hequiv
      exact (hequiv : False).elim
  · rcases hg₂ : jsGet L₂ slot with _ | s₂
    · rw [hg₁, hg₂] at hequiv
      exact (hequiv : False).elim
    · rw [hg₁, hg₂] at hequiv
      exact flatWrite_congr (WFStyle_jsGet h₁ hg₁) (WFStyle_jsGet h₂ hg₂)
        hequiv st sk p

/-- A layer defines `slot` iff it holds a defined entry for it, when the
layer's keys are unique. -/
theorem layerAny_eq (L : SlotStyles) (hnd : (keysOf L).Nodup) (slot : String) :
    L.any (layerEntryHas slot) = (jsGet L slot).isSome := by
  show (L.any fun kv => if kv.1 = slot then Option.isSome kv.2 else false) = _
  rw [any_key_of_nodup Option.isSome L slot hnd]
  rcases hg : getOwn L slot with _ | v
  · rw [show jsGet L slot = none from by rw [jsGet_def, hg]]
    rfl
  · rw [jsGet_eq_of_getOwn hg]

theorem layerAny_congr {L₁ L₂ : SlotStyles} (h₁ : WFSlotStyles L₁)
    (h₂ : WFSlotStyles L₂) (he : SlotStylesEquiv L₁ L₂) (slot : String) :
    L₁.any (layerEntryHas slot) = L₂.any (layerEntryHas slot) := by
  rw [layerAny_eq L₁ h₁.1 slot, layerAny_eq L₂ h₂.1 slot]
  have hequiv := he slot
  rcases hg₁ : jsGet L₁ slot with _ | s₁
  · rcases hg₂ : jsGet L₂ slot with _ | s₂
    · rfl
    · rw [hg₁, hg₂] at hequiv
      exact (hequiv : False).elim
  · rcases hg₂ : jsGet L₂ slot with _ | s₂
    · rw [hg₁, hg₂] at hequiv
      exact (hequiv : False).elim
    · rfl

/-- Equivalent variant tables contribute the same variant-layer write for
pointwise-equal effective selections. -/
theorem variantsWrite_congr {v₁ v₂ : Variants} (h₁ : WFVariants v₁)
    (h₂ : WFVariants v₂) (he : VariantsEquiv v₁ v₂)
    {eff₁ eff₂ : VariantSelections} (heff : ∀ n, jsGet eff₁ n = jsGet eff₂ n)
    (st : ComponentState) (sk : List String) (slot p : String) :
    variantsWrite v₁ eff₁ st sk slot p = variantsWrite v₂ eff₂ st sk slot p := by
  unfold variantsWrite
  rw [lastWrite_by_keys (variantEntryWrite eff₁ st sk slot p) v₁ h₁.1,
    lastWrite_by_keys (variantEntryWrite eff₂ st sk slot p) v₂ h₂.1, ← he.1]
  refine lastWrite_congr _ ?_
  intro name hname
  obtain ⟨val₁, hg₁⟩ := getOwn_isSome_of_mem_keysOf hname
  obtain ⟨val₂, hg₂⟩ := getOwn_isSome_of_mem_keysOf (he.1 ▸ hname)
  have hvv := he.2 name
  rw [jsGet_eq_of_getOwn hg₁, jsGet_eq_of_getOwn hg₂] at hvv
  rw [hg₁, hg₂]
  show variantEntryWrite eff₁ st sk slot p (name, val₁) =
    variantEntryWrite eff₂ st sk slot p (name, val₂)
  rcases val₁ with _ | d₁ <;> rcases val₂ with _ | d₂
  · simp only [variantEntryWrite, heff]
  · exact (hvv : False).elim
  · exact (hvv : False).elim
  · have hdd : VariantDefEquiv d₁ d₂ := hvv
    simp only [variantEntryWrite, heff]
    rcases hv : jsGet eff₂ name with _ | value
    · rfl
    · have hLL := hdd value
      show (match jsGet d₁ value with
            | some variantStyles => layerWrite variantStyles st sk slot p
            | none => none) =
          (match jsGet d₂ value with
            | some variantStyles => layerWrite variantStyles st sk slot p
            | none => none)
      rcases hj₁ : jsGet d₁ value with _ | L₁
      · rcases hj₂ : jsGet d₂ value with _ | L₂
        · rfl
        · rw [hj₁, hj₂] at hLL
          exact (hLL : False).elim
      · rcases hj₂ : jsGet d₂ value with _ | L₂
        · rw [hj₁, hj₂] at hLL
          exact (hLL : False).elim
        · rw [hj₁, hj₂] at hLL
          exact layerWrite_congr
            (WFSlotStyles_jsGet (WFVariantDef_jsGet h₁ (jsGet_eq_of_getOwn hg₁)) hj₁)
            (WFSlotStyles_jsGet (WFVariantDef_jsGet h₂ (jsGet_eq_of_getOwn hg₂)) hj₂)
            hLL st sk slot p

/-- Equivalent variant tables agree on whether the variant layer defines a
slot, for pointwise-equal effective selections. -/
theorem variantsAny_congr {v₁ v₂ : Variants} (h₁ : WFVariants v₁)
    (h₂ : WFVariants v₂) (he : VariantsEquiv v₁ v₂)
    {eff₁ eff₂ : VariantSelections} (heff : ∀ n, jsGet eff₁ n = jsGet eff₂ n)
    (slot : String) :
    v₁.any (variantEntryHas eff₁ slot) = v₂.any (variantEntryHas eff₂ slot) := by
  rw [any_by_keys (variantEntryHas eff₁ slot) v₁ h₁.1,
    any_by_keys (variantEntryHas eff₂ slot) v₂ h₂.1, ← he.1]
  refine any_congr_mem ?_
  intro name hname
  obtain ⟨val₁, hg₁⟩ := getOwn_isSome_of_mem_keysOf hname
  obtain ⟨val₂, hg₂⟩ := getOwn_isSome_of_mem_keysOf (he.1 ▸ hname)
  have hvv := he.2 name
  rw [jsGet_eq_of_getOwn hg₁, jsGet_eq_of_getOwn hg₂] at hvv
  rw [hg₁, hg₂]
  show variantEntryHas eff₁ slot (name, val₁) =
    variantEntryHas eff₂ slot (name, val₂)
  rcases val₁ with _ | d₁ <;> rcases val₂ with _ | d₂
  · simp only [variantEntryHas, heff]
  · exact (hvv : False).elim
  · exact (hvv : False).elim
  · have hdd : VariantDefEquiv d₁ d₂ := hvv
    simp only [variantEntryHas, heff]
    rcases hv : jsGet eff₂ name with _ | value
    · rfl
    · have hLL := hdd value
      show (match jsGet d₁ value with
            | some variantStyles => variantStyles.any (layerEntryHas slot)
            | none => false) =
          (match jsGet d₂ value with
            | some variantStyles => variantStyles.any (layerEntryHas slot)
            | none => false)
      rcases hj₁ : jsGet d₁ value with _ | L₁
      · rcases hj₂ : jsGet d₂ value with _ | L₂
        · rfl
        · rw [hj₁, hj₂] at hLL
          exact (hLL : False).elim
      · rcases hj₂ : jsGet d₂ value with _ | L₂
        · rw [hj₁, hj₂] at hLL
          exact (hLL : False).elim
        · rw [hj₁, hj₂] at hLL
          exact layerAny_congr
            (WFSlotStyles_jsGet (WFVariantDef_jsGet h₁ (jsGet_eq_of_getOwn hg₁)) hj₁)
            (WFSlotStyles_jsGet (WFVariantDef_jsGet h₂ (jsGet_eq_of_getOwn hg₂)) hj₂)
            hLL slot

/-- Whether a compound variant matches depends on the effective selections
only pointwise. -/
theorem compoundVariantMatches_congr (cv : CompoundVariant)
    {eff₁ eff₂ : VariantSelections} (heff : ∀ n, jsGet eff₁ n = jsGet eff₂ n) :
    compoundVariantMatches cv eff₁ = compoundVariantMatches cv eff₂ := by
  unfold compoundVariantMatches
  simp only [heff]

theorem compoundsWrite_congr (cs : List CompoundVariant)
    {eff₁ eff₂ : VariantSelections} (heff : ∀ n, jsGet eff₁ n = jsGet eff₂ n)
    (st : ComponentState) (sk : List String) (slot p : String) :
    compoundsWrite cs eff₁ st sk slot p = compoundsWrite cs eff₂ st sk slot p := by
  unfold compoundsWrite
  refine lastWrite_congr _ ?_
  intro cv _
  unfold compoundEntryWrite
  rw [compoundVariantMatches_congr cv heff]

theorem compoundsAny_congr (cs : List CompoundVariant)
    {eff₁ eff₂ : VariantSelections} (heff : ∀ n, jsGet eff₁ n = jsGet eff₂ n)
    (slot : String) :
    cs.any (compoundEntryHas eff₁ slot) = cs.any (compoundEntryHas eff₂ slot) := by
  refine any_congr_mem ?_
  intro cv _
  unfold compoundEntryHas
  rw [compoundVariantMatches_congr cv heff]

/-- The effective selections read the default-variant table only through
raw lookup. -/
theorem jsGet_effectiveVariants_congr {d₁ d₂ : Defaults}
    (hd : ∀ n, getOwn d₁ n = getOwn d₂ n) (vp : VariantSelections) (n : String) :
    jsGet (effectiveVariants d₁ vp) n = jsGet (effectiveVariants d₂ vp) n := by
  unfold effectiveVariants
  cases hvp : vp.isEmpty with
  | true =>
    simp only [hvp, Bool.not_true, Bool.false_eq_true, if_false]
    rw [jsGet_def, jsGet_def, hd n]
  | false =>
    simp only [hvp, Bool.not_false, if_true]
    rw [jsGet_def, jsGet_def, getOwn_spreadObj, getOwn_spreadObj, hd n]

/-- The `defaultVariants` spread is associative in raw lookup, given
unique keys. -/
theorem getOwn_spreadObj_assoc (a b c : List (String × α))
    (hb : (keysOf b).Nodup) (hc : (keysOf c).Nodup) (n : String) :
    getOwn (spreadObj a (spreadObj b c)) n =
      getOwn (spreadObj (spreadObj a b) c) n := by
  have h₁ : getOwn (spreadObj a (spreadObj b c)) n =
      oElse (oElse (getOwn c n) (getOwn b n)) (getOwn a n) := by
    rw [getOwn_spreadObj,
      lastEntry_eq_getOwn_of_nodup (nodup_keysOf_spreadObj c hb) n,
      getOwn_spreadObj, lastEntry_eq_getOwn_of_nodup hc n]
  have h₂ : getOwn (spreadObj (spreadObj a b) c) n =
      oElse (getOwn c n) (oElse (getOwn b n) (getOwn a n)) := by
    rw [getOwn_spreadObj, lastEntry_eq_getOwn_of_nodup hc n,
      getOwn_spreadObj, lastEntry_eq_getOwn_of_nodup hb n]
  rw [h₁, h₂, oElse_assoc]

/-- Two processed configs with equal state keys, observationally equivalent
`base` and `variants`, equal compound lists and pointwise-equal defaults
resolve identically, slot presence included. -/
theorem resolveStyles_obs_congr (P₁ P₂ : ProcessedStyledConfig)
    (hsk : P₁.stateKeys = P₂.stateKeys)
    (hb₁ : WFSlotStyles P₁.base) (hb₂ : WFSlotStyles P₂.base)
    (hbase : SlotStylesEquiv P₁.base P₂.base)
    (hv₁ : WFVariants P₁.variants) (hv₂ : WFVariants P₂.variants)
    (hvar : VariantsEquiv P₁.variants P₂.variants)
    (hcomp : P₁.compoundVariants = P₂.compoundVariants)
    (hdef : ∀ n, getOwn P₁.defaultVariants n = getOwn P₂.defaultVariants n)
    (st : ComponentState) (vp : VariantSelections) (inl : Option SlotStyles)
    (slot p : String) :
    hasOwnKey (resolveStyles P₁ st vp inl) slot =
        hasOwnKey (resolveStyles P₂ st vp inl) slot ∧
      resolvedGet (resolveStyles P₁ st vp inl) slot p =
        resolvedGet (resolveStyles P₂ st vp inl) slot p := by
  have heff : ∀ n, jsGet (effectiveVariants P₁.defaultVariants vp) n =
      jsGet (effectiveVariants P₂.defaultVariants vp) n :=
    fun n => jsGet_effectiveVariants_congr hdef vp n
  constructor
  · rw [hasOwnKey_resolveStyles, hasOwnKey_resolveStyles, hcomp,
      compoundsAny_congr P₂.compoundVariants heff slot,
      variantsAny_congr hv₁ hv₂ hvar heff slot,
      layerAny_congr hb₁ hb₂ hbase slot]
  · rw [resolvedGet_resolveStyles, resolvedGet_resolveStyles, hcomp, hsk,
      compoundsWrite_congr P₂.compoundVariants heff st P₂.stateKeys slot p,
      variantsWrite_congr hv₁ hv₂ hvar heff st P₂.stateKeys slot p,
      layerWrite_congr hb₁ hb₂ hbase st P₂.stateKeys slot p]

/-- C2: For all well-formed author-facing configs A, B, C (unique keys at
every object level and state-selector keys holding partial style objects,
as the TypeScript types guarantee) and for every state, variant
selections, and inline style, resolving the normalization of
`mergeStyledConfig(A, mergeStyledConfig(B, C))` yields the same per-slot
style map — same defined slots, same property values at every slot — as
resolving the normalization of
`mergeStyledConfig(mergeStyledConfig(A, B), C)`. -/
theorem c2_merge_associativity (A B C : StyledConfig)
    (hA : WFConfig A) (hB : WFConfig B) (hC : WFConfig C)
    (sk : List String) (st : ComponentState) (vp : VariantSelections)
    (inl : Option SlotStyles) (slot p : String) :
    hasOwnKey (resolveStyles
        (processStyledConfig (mergeStyledConfig A (mergeStyledConfig B C)) sk)
        st vp inl) slot =
      hasOwnKey (resolveStyles
        (processStyledConfig (mergeStyledConfig (mergeStyledConfig A B) C) sk)
        st vp inl) slot ∧
    resolvedGet (resolveStyles
        (processStyledConfig (mergeStyledConfig A (mergeStyledConfig B C)) sk)
        st vp inl) slot p =
      resolvedGet (resolveStyles
        (processStyledConfig (mergeStyledConfig (mergeStyledConfig A B) C) sk)
        st vp inl) slot p := by
  obtain ⟨hbA, hvA, -, -⟩ := hA
  obtain ⟨hbB, hvB, -, hdB⟩ := hB
  obtain ⟨hbC, hvC, -, hdC⟩ := hC
  have hBC : WFVariants (mergeVariants (some (B.variants.getD []))
      (some (C.variants.getD []))) := WFVariants_mergeVariants hvB hvC
  have hAB : WFVariants (mergeVariants (some (A.variants.getD []))
      (some (B.variants.getD []))) := WFVariants_mergeVariants hvA hvB
  have e₁ : mergeVariants A.variants (some (mergeVariants B.variants C.variants)) =
      mergeVariants (some (A.variants.getD []))
        (some (mergeVariants (some (B.variants.getD []))
          (some (C.variants.getD [])))) := by
    rw [mergeVariants_norm B.variants C.variants hvC.1,
      mergeVariants_norm A.variants
        (some (mergeVariants (some (B.variants.getD []))
          (some (C.variants.getD [])))) hBC.1]
    rfl
  have e₂ : mergeVariants (some (mergeVariants A.variants B.variants)) C.variants =
      mergeVariants (some (mergeVariants (some (A.variants.getD []))
        (some (B.variants.getD [])))) (some (C.variants.getD [])) := by
    rw [mergeVariants_norm A.variants B.variants hvB.1,
      mergeVariants_norm (some (mergeVariants (some (A.variants.getD []))
        (some (B.variants.getD [])))) C.variants hvC.1]
    rfl
  refine resolveStyles_obs_congr _ _ ?_ ?_ ?_ ?_ ?_ ?_ ?_ ?_ ?_ st vp inl slot p
  · rfl
  · exact WFSlotStyles_mergeSlotStyles hbA (WFSlotStyles_mergeSlotStyles hbB hbC)
  · exact WFSlotStyles_mergeSlotStyles (WFSlotStyles_mergeSlotStyles hbA hbB) hbC
  · exact mergeSlotStyles_assoc (A.base.getD []) (B.base.getD [])
      (C.base.getD []) hbA hbB hbC
  · show WFVariants (mergeVariants A.variants
      (some (mergeVariants B.variants C.variants)))
    rw [e₁]
    exact WFVariants_mergeVariants hvA hBC
  · show WFVariants (mergeVariants
      (some (mergeVariants A.variants B.variants)) C.variants)
    rw [e₂]
    exact WFVariants_mergeVariants hAB hvC
  · show VariantsEquiv
      (mergeVariants A.variants (some (mergeVariants B.variants C.variants)))
      (mergeVariants (some (mergeVariants A.variants B.variants)) C.variants)
    rw [e₁, e₂]
    exact mergeVariants_assoc_some (A.variants.getD []) (B.variants.getD [])
      (C.variants.getD []) hvA hvB hvC
  · exact (List.append_assoc (A.compoundVariants.getD [])
      (B.compoundVariants.getD []) (C.compoundVariants.getD [])).symm
  · intro n
    exact getOwn_spreadObj_assoc (A.defaultVariants.getD [])
      (B.defaultVariants.getD []) (C.defaultVariants.getD []) hdB hdC n

def c2cfgA : StyledConfig :=
  { base := some [("root", some [("fg", .prim "white"),
      ("_checked", .obj [("fg", some "yellow")])])]
    variants := some [("intent", some [("primary",
      some [("root", some [("fg", .prim "blue")])])])]
    compoundVariants := some [⟨[("intent", some "primary")],
      [("root", some [("bg", .prim "black")])]⟩]
    defaultVariants := some [("intent", some "primary")] }

def c2cfgB : StyledConfig :=
  { base := some [("root", some [("bg", .prim "navy"),
      ("_checked", .obj [("bg", some "green")])])]
    variants := some [("intent", some [("danger",
      some [("root", some [("fg", .prim "red")])])])]
    compoundVariants := none
    defaultVariants := some [("intent", some "danger")] }

def c2cfgC : StyledConfig :=
  { base := some [("label", some [("fg", .prim "gray")])]
    variants := some [("intent", some [("primary",
      some [("root", some [("bg", .prim "teal")])])])]
    compoundVariants := none
    defaultVariants := none }

/-- Witness for C2 at three overlapping concrete configs. -/
theorem c2_merge_associativity_witness :
    WFConfig c2cfgA ∧ WFConfig c2cfgB ∧ WFConfig c2cfgC ∧
      (hasOwnKey (resolveStyles (processStyledConfig
            (mergeStyledConfig c2cfgA (mergeStyledConfig c2cfgB c2cfgC))
            ["checked"]) [("checked", true)] [] none) "root" =
          hasOwnKey (resolveStyles (processStyledConfig
            (mergeStyledConfig (mergeStyledConfig c2cfgA c2cfgB) c2cfgC)
            ["checked"]) [("checked", true)] [] none) "root" ∧
        resolvedGet (resolveStyles (processStyledConfig
            (mergeStyledConfig c2cfgA (mergeStyledConfig c2cfgB c2cfgC))
            ["checked"]) [("checked", true)] [] none) "root" "fg" =
          resolvedGet (resolveStyles (processStyledConfig
            (mergeStyledConfig (mergeStyledConfig c2cfgA c2cfgB) c2cfgC)
            ["checked"]) [("checked", true)] [] none) "root" "fg") :=
  ⟨by decide, by decide, by decide,
    c2_merge_associativity c2cfgA c2cfgB c2cfgC (by decide) (by decide) (by decide)
      ["checked"] [("checked", true)] [] none "root" "fg"⟩
